import Mathlib

/-!
Verification of the ssh-manager repository (`src/main.py`) against its
natural-language specification.

The development shallowly embeds the Python program:

* JSON values (as produced by `json.load` / `response.json()`) become the
  inductive type `Json`.  JSON numbers are modelled as integers only;
  floating-point numbers are outside the scope of the claims.
* Python dictionary / list / string primitives used by the source
  (`dict.get`, truthiness tests, `x[0]`, negative list indexing, `str.lower`,
  f-string conversion, `int(...)` parsing) become explicit total functions.
  Code that can raise an uncaught Python exception is modelled in the
  `Except String` monad, the error string naming the exception class.
* Interactive input (`input()`) is modelled by passing the entered strings
  (or a `KeyboardInterrupt`) as explicit arguments; the observable effects
  (printed reports, `os.system` invocation, file write) become explicit
  result values.
* The config file on disk is modelled at two levels: as a parsed JSON value
  (`ManagerState.disk`, used by the refresh/list claims) and, for the
  load/persist round-trip claim, at the byte level via models of
  `json.dump(..., indent=4)` (`pyDump`) and `json.load` (`pyParse`).
-/

set_option autoImplicit false

/-- A JSON value, as handled by Python's `json` module and by the Notion
response body.  Numbers are modelled as integers only (no value handled by
the claims is a float); objects are insertion-ordered association lists,
mirroring Python's insertion-ordered `dict`. -/
inductive Json where
  | null : Json
  | bool (b : Bool) : Json
  | num (n : Int) : Json
  | str (s : String) : Json
  | arr (elems : List Json) : Json
  | obj (members : List (String × Json)) : Json
  deriving Repr

/-- First binding of a key in an association list, mirroring lookup in a
Python `dict` (whose keys are unique, so first = only). -/
def lookupKey : List (String × Json) → String → Option Json
  | [], _ => none
  | (k, v) :: rest, key => if k = key then some v else lookupKey rest key

/-- Python `v.get(key, default)`.  On a non-dict receiver the attribute
access raises `AttributeError` (modelled as an error result). -/
def pyGet (v : Json) (key : String) (default : Json) : Except String Json :=
  match v with
  | Json.obj kvs => Except.ok ((lookupKey kvs key).getD default)
  | _ => Except.error "AttributeError"

/-- Python `v[key]` subscription: `KeyError` when the key is absent,
`TypeError` on a non-dict receiver (for the values flowing here). -/
def pyGetItem (v : Json) (key : String) : Except String Json :=
  match v with
  | Json.obj kvs =>
    match lookupKey kvs key with
    | some x => Except.ok x
    | none => Except.error "KeyError"
  | _ => Except.error "TypeError"

/-- Python truthiness of a JSON-derived value (`if x:`). -/
def truthy : Json → Bool
  | Json.null => false
  | Json.bool b => b
  | Json.num n => n != 0
  | Json.str s => !s.isEmpty
  | Json.arr xs => !xs.isEmpty
  | Json.obj kvs => !kvs.isEmpty

/-- Python `x[0]` on a JSON-derived value: first element of a list, first
character of a string (as a 1-character string), `IndexError` when empty,
`KeyError`/`TypeError` otherwise. -/
def pyIndex0 : Json → Except String Json
  | Json.arr (x :: _) => Except.ok x
  | Json.arr [] => Except.error "IndexError"
  | Json.str s =>
    if s.isEmpty then Except.error "IndexError"
    else Except.ok (Json.str (String.singleton s.front))
  | Json.obj _ => Except.error "KeyError"
  | _ => Except.error "TypeError"

/-- ASCII lowering of one character. -/
def lowerChar (c : Char) : Char :=
  if 65 ≤ c.toNat ∧ c.toNat ≤ 90 then Char.ofNat (c.toNat + 32) else c

/-- Python `x.lower()`: defined on strings (ASCII lowering; Unicode case
mapping is not modelled), `AttributeError` otherwise. -/
def pyLower : Json → Except String Json
  | Json.str s => Except.ok (Json.str (String.mk (s.data.map lowerChar)))
  | _ => Except.error "AttributeError"

/-- Python `repr` of a JSON-derived value (used by `str` on containers).
String escaping inside `repr` is not modelled; no claim inspects this
rendering. -/
def pyRepr : Json → String
  | Json.null => "None"
  | Json.bool true => "True"
  | Json.bool false => "False"
  | Json.num n => toString n
  | Json.str s => "'" ++ s ++ "'"
  | Json.arr xs => "[" ++ String.intercalate ", " (xs.attach.map fun x => pyRepr x.1) ++ "]"
  | Json.obj kvs =>
    "\x7b" ++ String.intercalate ", "
      (kvs.attach.map fun kv => "'" ++ kv.1.1 ++ "': " ++ pyRepr kv.1.2) ++ "\x7d"
decreasing_by
  · have h := List.sizeOf_lt_of_mem x.2
    simp_wf
    omega
  · have h := List.sizeOf_lt_of_mem kv.2
    obtain ⟨⟨k, v⟩, hm⟩ := kv
    simp only [Prod.mk.sizeOf_spec] at h
    simp_wf
    omega

/-- Python `str(x)` as used by f-string interpolation (`f"..."`). -/
def pyStr : Json → String
  | Json.null => "None"
  | Json.bool true => "True"
  | Json.bool false => "False"
  | Json.num n => toString n
  | Json.str s => s
  | Json.arr xs => pyRepr (Json.arr xs)
  | Json.obj kvs => pyRepr (Json.obj kvs)

/-! ## Field extraction (`src/main.py` lines 62-88)

For each result page the source extracts four fields "with safer access
methods": a guard chain of `dict.get` with defaults, a truthiness test, and
`[0]` indexing.  A field whose chain hits a missing key, an empty sequence or
a falsy (e.g. `null`) select yields `''`; an ill-typed value *present* in the
chain makes the corresponding Python attribute access raise. -/

/-- `properties.get(propName, {}).get(listField, [])` followed by
`xs[0].get('text', {}).get('content', '') if xs else ''` — the shared shape
of the `Project` (title), `SSH` (rich_text) and `password` (rich_text)
extractions. -/
def extractTextContent (properties : Json) (propName listField : String) :
    Except String Json := do
  let p ← pyGet properties propName (Json.obj [])
  let xs ← pyGet p listField (Json.arr [])
  if truthy xs then
    let first ← pyIndex0 xs
    let t ← pyGet first "text" (Json.obj [])
    pyGet t "content" (Json.str "")
  else
    pure (Json.str "")

/-- `project` extraction (line 67-68). -/
def extractProject (properties : Json) : Except String Json :=
  extractTextContent properties "Project" "title"

/-- `ssh` extraction (line 70-71). -/
def extractSsh (properties : Json) : Except String Json :=
  extractTextContent properties "SSH" "rich_text"

/-- `type_` extraction (line 73-74):
`properties.get('Type', {}).get('select', {})` then
`type_property.get('name', '').lower() if type_property else ''`. -/
def extractType (properties : Json) : Except String Json := do
  let p ← pyGet properties "Type" (Json.obj [])
  let typeProperty ← pyGet p "select" (Json.obj [])
  if truthy typeProperty then
    let name ← pyGet typeProperty "name" (Json.str "")
    pyLower name
  else
    pure (Json.str "")

/-- `password` extraction (line 76-77). -/
def extractPassword (properties : Json) : Except String Json :=
  extractTextContent properties "password" "rich_text"

/-- For one result page: extract the four fields (in source order), build the
key `f"{project}@{type_}"` and the connection-record dict (lines 64-88). -/
def pageEntry (page : Json) : Except String (String × Json) := do
  let properties ← pyGet page "properties" (Json.obj [])
  let project ← extractProject properties
  let ssh ← extractSsh properties
  let type_ ← extractType properties
  let password ← extractPassword properties
  let key := pyStr project ++ "@" ++ pyStr type_
  pure (key, Json.obj
    [("type", type_), ("project", project),
     ("ssh_command", ssh), ("password", password)])

/-- Python dict assignment `d[key] = v` on an insertion-ordered dict:
an existing binding is updated in place, a new key is appended. -/
def dictInsert (d : List (String × Json)) (key : String) (v : Json) :
    List (String × Json) :=
  if d.any (fun kv => kv.1 = key) then
    d.map (fun kv => if kv.1 = key then (key, v) else kv)
  else
    d ++ [(key, v)]

/-- The ingestion loop `for page in results: ... connections[key] = {...}`
(lines 62-88) with its accumulated dict `d`, aborting (uncaught exception)
if any extraction raises. -/
def buildConnectionsAux (d : List (String × Json)) :
    List Json → Except String (List (String × Json))
  | [] => Except.ok d
  | page :: rest => do
    let e ← pageEntry page
    buildConnectionsAux (dictInsert d e.1 e.2) rest

/-- The ingestion loop started from the empty dict `connections = {}`. -/
def buildConnections (results : List Json) : Except String (List (String × Json)) :=
  buildConnectionsAux [] results

/-- The per-page entries of a result list, in response order (the loop's
sequence of `(key, record)` pairs before dict insertion). -/
def pageEntries : List Json → Except String (List (String × Json))
  | [] => Except.ok []
  | p :: ps => do
    let e ← pageEntry p
    let es ← pageEntries ps
    pure (e :: es)

/-- Python `for page in results` over a JSON-derived value: lists iterate
elements, strings iterate characters, dicts iterate keys, the rest raise
`TypeError`. -/
def pyIter : Json → Except String (List Json)
  | Json.arr xs => Except.ok xs
  | Json.str s => Except.ok (s.data.map fun c => Json.str (String.singleton c))
  | Json.obj kvs => Except.ok (kvs.map fun kv => Json.str kv.1)
  | _ => Except.error "TypeError"

/-! ## The manager state and `refresh` (`src/main.py` lines 32-99) -/

/-- The mutable state of `SSHConnectionManager`: the in-memory
`self.connections` value and the parsed content of the config file on disk
(`none` = the file does not exist). -/
structure ManagerState where
  connections : Json
  disk : Option Json
  deriving Repr

/-- Outcome of the `requests.post` + `raise_for_status` pair (lines 50-51):
either some `requests.RequestException` (connection error, timeout, non-2xx
status), or a 2xx response whose body parses to a JSON value (`none` when
`response.json()` raises `ValueError`). -/
inductive FetchOutcome where
  | requestError (msg : String) : FetchOutcome
  | success (body : Option Json) : FetchOutcome

/-- The environment a single `refresh()` call runs against: the network
outcome and whether opening the config file for writing succeeds.  A write
failure is modelled as `open(..., 'w')` raising `IOError` before anything is
written, leaving the file as it was. -/
structure RefreshEnv where
  fetch : FetchOutcome
  writeOk : Bool

/-- The report `refresh()` ends with. -/
inductive RefreshResult where
  | fetchError (msg : String) : RefreshResult
  | decodeError : RefreshResult
  | crash (msg : String) : RefreshResult
  | writeFailure (msg : String) : RefreshResult
  | success : RefreshResult
  deriving Repr

/-- `SSHConnectionManager.refresh` (lines 32-99).  `crash` marks an uncaught
Python exception (the extraction loop and the `.get('results', ...)` access
sit outside every `try`), under which the state is returned unchanged (the
process dies before `self.connections` or the file is touched). -/
def refresh (st : ManagerState) (env : RefreshEnv) : ManagerState × RefreshResult :=
  match env.fetch with
  | FetchOutcome.requestError msg => (st, RefreshResult.fetchError msg)
  | FetchOutcome.success none => (st, RefreshResult.decodeError)
  | FetchOutcome.success (some body) =>
    match pyGet body "results" (Json.arr []) with
    | Except.error msg => (st, RefreshResult.crash msg)
    | Except.ok resultsJson =>
      match pyIter resultsJson with
      | Except.error msg => (st, RefreshResult.crash msg)
      | Except.ok results =>
        match buildConnections results with
        | Except.error msg => (st, RefreshResult.crash msg)
        | Except.ok conns =>
          if env.writeOk then
            ({ connections := Json.obj conns, disk := some (Json.obj conns) },
             RefreshResult.success)
          else
            (st, RefreshResult.writeFailure "IOError")

/-- `SSHConnectionManager.load_config` (lines 24-30): parse the existing
config file, or start from `{}` when the file is missing.  (A malformed
existing file raises out of `json.load`; the byte-level `pyParse` model
below covers parsing itself.) -/
def load_config (disk : Option Json) : Json :=
  match disk with
  | some v => v
  | none => Json.obj []

/-! ## `list_connections` (`src/main.py` lines 101-134) -/

/-- Digits of a decimal numeral. -/
def allDigits (cs : List Char) : Bool := cs.all Char.isDigit

/-- Numeric value of a (known-all-digit) numeral. -/
def digitsVal (cs : List Char) : Nat :=
  cs.foldl (fun a c => 10 * a + (c.toNat - 48)) 0

/-- Leading and trailing whitespace removed, as `int(...)` strips its
argument (ASCII whitespace; CPython also strips other Unicode spaces). -/
def stripChars (cs : List Char) : List Char :=
  ((cs.dropWhile Char.isWhitespace).reverse.dropWhile Char.isWhitespace).reverse

/-- Python `int(s)`: surrounding whitespace is stripped, an optional single
sign precedes a non-empty run of decimal digits; anything else raises
`ValueError` (`none`).  Underscore digit grouping and non-ASCII digits are
accepted by CPython but not modelled; no claim involves them. -/
def pyInt (s : String) : Option Int :=
  match stripChars s.data with
  | [] => none
  | '+' :: rest =>
    if rest ≠ [] ∧ allDigits rest then some (Int.ofNat (digitsVal rest)) else none
  | '-' :: rest =>
    if rest ≠ [] ∧ allDigits rest then some (-(Int.ofNat (digitsVal rest))) else none
  | cs =>
    if allDigits cs then some (Int.ofNat (digitsVal cs)) else none

/-- Python list subscription `xs[i]` with an `Int` index: negative indices
count from the end; out-of-range raises `IndexError` (`none`). -/
def pyListGet {α : Type} (xs : List α) (i : Int) : Option α :=
  let j := if i < 0 then i + xs.length else i
  if j < 0 then none else xs.get? j.toNat

/-- One line of `input()`: either a returned string or a
`KeyboardInterrupt` raised while waiting. -/
inductive UserInput where
  | text (s : String) : UserInput
  | interrupt : UserInput

/-- How a `list_connections()` call ends.  `executed cmd` means
`os.system(connection['ssh_command'])` ran the stored command; every other
constructor invokes no subprocess.  `crash` marks an uncaught Python
exception. -/
inductive ListResult where
  | noConnections : ListResult
  | invalidIndex : ListResult
  | canceled : ListResult
  | interrupted : ListResult
  | executed (cmd : Json) : ListResult
  | crash (msg : String) : ListResult
  deriving Repr

/-- The report printed for each outcome (lines 125, 128, 130, 132, 134). -/
def listResultMessage : ListResult → String
  | ListResult.noConnections => "No SSH connections available."
  | ListResult.invalidIndex => "Invalid index. Please enter a valid number."
  | ListResult.canceled => "Command execution canceled."
  | ListResult.interrupted => "\nOperation canceled...\n"
  | ListResult.executed _ => "Command executing..."
  | ListResult.crash msg => msg

/-- Rendering one table row (lines 106-111) reads the four record fields
with bare subscription; a missing field raises `KeyError` (uncaught: the
table is built outside the `try`). -/
def renderRow (details : Json) : Except String Unit := do
  let _ ← pyGetItem details "project"
  let _ ← pyGetItem details "ssh_command"
  let _ ← pyGetItem details "type"
  let _ ← pyGetItem details "password"
  pure ()

/-- Rendering the whole table (lines 103-114). -/
def renderTable : List (String × Json) → Except String Unit
  | [] => Except.ok ()
  | kv :: rest => do
    renderRow kv.2
    renderTable rest

/-- `SSHConnectionManager.list_connections` (lines 101-134), with the two
`input()` results passed in.  Notable modelled details of the source:

* `int(input(...))` — a `ValueError` is caught as "Invalid index";
* `list(self.connections.values())[index - 1]` — Python indexing, so a
  negative effective index counts from the end of the list and only a
  genuinely out-of-range index raises the caught `IndexError`;
* the confirmation f-string reads `connection['project']` and
  `connection['type']` before prompting;
* `confirm == ''` executes, any other returned string cancels, and a
  `KeyboardInterrupt` at either prompt is caught as "Operation canceled". -/
def list_connections (connections : Json) (selectionInput confirmInput : UserInput) :
    ListResult :=
  if truthy connections then
    match connections with
    | Json.obj kvs =>
      match renderTable kvs with
      | Except.error msg => ListResult.crash msg
      | Except.ok _ =>
        match selectionInput with
        | UserInput.interrupt => ListResult.interrupted
        | UserInput.text s =>
          match pyInt s with
          | none => ListResult.invalidIndex
          | some index =>
            match pyListGet (kvs.map Prod.snd) (index - 1) with
            | none => ListResult.invalidIndex
            | some connection =>
              match pyGetItem connection "project", pyGetItem connection "type" with
              | Except.ok _, Except.ok _ =>
                match confirmInput with
                | UserInput.interrupt => ListResult.interrupted
                | UserInput.text confirm =>
                  if confirm = "" then
                    match pyGetItem connection "ssh_command" with
                    | Except.ok cmd => ListResult.executed cmd
                    | Except.error msg => ListResult.crash msg
                  else
                    ListResult.canceled
              | Except.error msg, _ => ListResult.crash msg
              | _, Except.error msg => ListResult.crash msg
    | _ => ListResult.crash "AttributeError"
  else
    ListResult.noConnections

/-! ## Byte-level config file model: `json.dump(..., indent=4)` and `json.load`

Used by the load/persist round-trip claim.  The serializer follows CPython's
`json.dump` with `indent=4` and default separators exactly (for the modelled
JSON fragment); the parser follows `json.load` on that fragment.  Out of
scope, and documented as such: floating-point numbers, `\b`, `\f` and `\u`
string escapes, and `ensure_ascii` escaping of non-ASCII characters (the
well-formedness predicate `wfJson` below restricts strings to printable
ASCII without `"` or `\`, where none of those arise). -/

/-- Opening brace character (written via its code point). -/
def lbrace : Char := Char.ofNat 123

/-- Closing brace character (written via its code point). -/
def rbrace : Char := Char.ofNat 125

/-- Decimal digits of a natural number, most significant first. -/
def natChars (n : Nat) : List Char :=
  if n < 10 then [Char.ofNat (48 + n)]
  else natChars (n / 10) ++ [Char.ofNat (48 + n % 10)]
decreasing_by exact Nat.div_lt_self (by omega) (by omega)

/-- Decimal rendering of an integer, as `json.dump` writes an `int`. -/
def intChars : Int → List Char
  | Int.ofNat m => natChars m
  | Int.negSucc m => '-' :: natChars (m + 1)

/-- JSON string escaping for one character (the escapes exercised by the
modelled fragment; `\b`, `\f`, `\u` are not modelled). -/
def escChar (c : Char) : List Char :=
  if c = '"' then ['\\', '"']
  else if c = '\\' then ['\\', '\\']
  else if c = '\n' then ['\\', 'n']
  else if c = '\t' then ['\\', 't']
  else if c = '\r' then ['\\', 'r']
  else [c]

/-- A JSON string literal: `"` contents `"`. -/
def dumpString (s : String) : List Char :=
  '"' :: (s.data.map escChar).flatten ++ ['"']

/-- `indent=4` padding at nesting depth `lvl` uses `4 * lvl` spaces. -/
def indentChars (n : Nat) : List Char := List.replicate n ' '

mutual
/-- `json.dump(v, file, indent=4)` at nesting level `lvl`. -/
def dumpVal : Nat → Json → List Char
  | _, Json.null => "null".data
  | _, Json.bool true => "true".data
  | _, Json.bool false => "false".data
  | _, Json.num n => intChars n
  | _, Json.str s => dumpString s
  | _, Json.arr [] => "[]".data
  | lvl, Json.arr (x :: xs) =>
    '[' :: '\n' :: (dumpItems (lvl + 1) (x :: xs) ++ '\n' :: (indentChars (4 * lvl) ++ [']']))
  | _, Json.obj [] => [lbrace, rbrace]
  | lvl, Json.obj (kv :: kvs) =>
    lbrace :: '\n' ::
      (dumpMembersJ (lvl + 1) (kv :: kvs) ++ '\n' :: (indentChars (4 * lvl) ++ [rbrace]))

/-- Array items, one per line, comma-separated. -/
def dumpItems : Nat → List Json → List Char
  | _, [] => []
  | lvl, [x] => indentChars (4 * lvl) ++ dumpVal lvl x
  | lvl, x :: y :: rest =>
    indentChars (4 * lvl) ++ dumpVal lvl x ++ ',' :: '\n' :: dumpItems lvl (y :: rest)

/-- Object members, one per line, `"key": value`, comma-separated. -/
def dumpMembersJ : Nat → List (String × Json) → List Char
  | _, [] => []
  | lvl, [kv] => indentChars (4 * lvl) ++ dumpString kv.1 ++ ':' :: ' ' :: dumpVal lvl kv.2
  | lvl, kv :: kv2 :: rest =>
    indentChars (4 * lvl) ++ dumpString kv.1 ++ ':' :: ' ' :: dumpVal lvl kv.2 ++
      ',' :: '\n' :: dumpMembersJ lvl (kv2 :: rest)
end

/-- The bytes `persist` puts in the config file (line 92-93). -/
def pyDump (v : Json) : String := String.mk (dumpVal 0 v)

/-- JSON whitespace. -/
def isWsChar (c : Char) : Bool := c = ' ' || c = '\n' || c = '\t' || c = '\r'

/-- Drop leading JSON whitespace. -/
def skipWs : List Char → List Char
  | [] => []
  | c :: cs => if isWsChar c then skipWs cs else c :: cs

/-- Body of a JSON string literal after the opening quote; returns the
decoded characters and the input after the closing quote. -/
def parseStringBody : List Char → Option (List Char × List Char)
  | [] => none
  | c :: cs =>
    if c = '"' then some ([], cs)
    else if c = '\\' then
      match cs with
      | [] => none
      | e :: cs' =>
        let dec : Option Char :=
          if e = '"' then some '"'
          else if e = '\\' then some '\\'
          else if e = '/' then some '/'
          else if e = 'n' then some '\n'
          else if e = 't' then some '\t'
          else if e = 'r' then some '\r'
          else none
        match dec with
        | some d => (parseStringBody cs').map (fun r => (d :: r.1, r.2))
        | none => none
    else
      (parseStringBody cs).map (fun r => (c :: r.1, r.2))

/-- Longest leading run of decimal digits. -/
def takeDigits : List Char → List Char × List Char
  | [] => ([], [])
  | c :: cs =>
    if c.isDigit then
      let r := takeDigits cs
      (c :: r.1, r.2)
    else ([], c :: cs)

/-- An integer JSON number (fractions/exponents are out of the modelled
fragment; their continuation makes the surrounding parse fail instead). -/
def parseNumber (cs : List Char) : Option (Int × List Char) :=
  match cs with
  | [] => none
  | c :: rest =>
    if c = '-' then
      match takeDigits rest with
      | ([], _) => none
      | (ds, rest') => some (-(Int.ofNat (digitsVal ds)), rest')
    else
      match takeDigits (c :: rest) with
      | ([], _) => none
      | (ds, rest') => some (Int.ofNat (digitsVal ds), rest')

/-- Building a Python `dict` from parsed `key: value` pairs: duplicate keys
collapse, last binding wins (as in `json.load`). -/
def dedupMembers (kvs : List (String × Json)) : List (String × Json) :=
  kvs.foldl (fun d kv => dictInsert d kv.1 kv.2) []

mutual
/-- One JSON value (leading whitespace allowed).  `fuel` bounds the
recursion depth; every caller supplies enough (`fuelVal`-much) fuel. -/
def parseVal : Nat → List Char → Option (Json × List Char)
  | 0, _ => none
  | fuel + 1, cs =>
    match skipWs cs with
    | [] => none
    | c :: cs' =>
      if c = lbrace then
        match skipWs cs' with
        | [] => none
        | c2 :: rest2 =>
          if c2 = rbrace then some (Json.obj [], rest2)
          else (parseMembers fuel cs').map (fun r => (Json.obj (dedupMembers r.1), r.2))
      else if c = '[' then
        match skipWs cs' with
        | ']' :: rest2 => some (Json.arr [], rest2)
        | _ => (parseElems fuel cs').map (fun r => (Json.arr r.1, r.2))
      else if c = '"' then
        (parseStringBody cs').map (fun r => (Json.str (String.mk r.1), r.2))
      else if c = 't' then
        match cs' with
        | 'r' :: 'u' :: 'e' :: rest => some (Json.bool true, rest)
        | _ => none
      else if c = 'f' then
        match cs' with
        | 'a' :: 'l' :: 's' :: 'e' :: rest => some (Json.bool false, rest)
        | _ => none
      else if c = 'n' then
        match cs' with
        | 'u' :: 'l' :: 'l' :: rest => some (Json.null, rest)
        | _ => none
      else
        (parseNumber (c :: cs')).map (fun r => (Json.num r.1, r.2))

/-- One or more comma-separated array elements, then `]`. -/
def parseElems : Nat → List Char → Option (List Json × List Char)
  | 0, _ => none
  | fuel + 1, cs =>
    match parseVal fuel cs with
    | none => none
    | some (v, afterVal) =>
      match skipWs afterVal with
      | ',' :: afterComma => (parseElems fuel afterComma).map (fun r => (v :: r.1, r.2))
      | ']' :: rest => some ([v], rest)
      | _ => none

/-- One or more comma-separated `"key": value` members, then the closing
brace. -/
def parseMembers : Nat → List Char → Option (List (String × Json) × List Char)
  | 0, _ => none
  | fuel + 1, cs =>
    match skipWs cs with
    | '"' :: cs' =>
      match parseStringBody cs' with
      | none => none
      | some (keyChars, afterKey) =>
        match skipWs afterKey with
        | ':' :: afterColon =>
          match parseVal fuel afterColon with
          | none => none
          | some (v, afterVal) =>
            match skipWs afterVal with
            | ',' :: afterComma =>
              (parseMembers fuel afterComma).map
                (fun r => ((String.mk keyChars, v) :: r.1, r.2))
            | c2 :: rest =>
              if c2 = rbrace then some ([(String.mk keyChars, v)], rest) else none
            | [] => none
        | _ => none
    | _ => none
end

/-- `json.load`: parse the whole file, allowing trailing whitespace.  The
fuel `s.length + 1` always suffices (each recursion step consumes input). -/
def pyParse (s : String) : Option Json :=
  match parseVal (s.length + 1) s.data with
  | some (v, rest) => if skipWs rest = [] then some v else none
  | none => none

/-- Printable-ASCII character other than `"` and `\`: serialized without
escaping. -/
def plainChar (c : Char) : Bool :=
  decide (32 ≤ c.toNat) && decide (c.toNat < 127) && !(c = '"') && !(c = '\\')

/-- A string serialized verbatim (no escapes). -/
def plainStr (s : String) : Bool := s.data.all plainChar

/-- Unique keys, as in any dict `json.load` produced. -/
def keysNodupB : List (String × Json) → Bool
  | [] => true
  | kv :: rest => !(rest.any fun kv2 => kv2.1 = kv.1) && keysNodupB rest

mutual
/-- The modelled JSON fragment: integer numbers, plain-ASCII strings and
keys, unique keys per object. -/
def wfJson : Json → Bool
  | Json.null => true
  | Json.bool _ => true
  | Json.num _ => true
  | Json.str s => plainStr s
  | Json.arr xs => wfElems xs
  | Json.obj kvs => keysNodupB kvs && wfMembers kvs

/-- `wfJson` for every array element. -/
def wfElems : List Json → Bool
  | [] => true
  | x :: xs => wfJson x && wfElems xs

/-- Plain keys and `wfJson` values for every member. -/
def wfMembers : List (String × Json) → Bool
  | [] => true
  | kv :: rest => plainStr kv.1 && wfJson kv.2 && wfMembers rest
end

mutual
/-- Fuel sufficient for `parseVal` on the serialization of `v`. -/
def fuelVal : Json → Nat
  | Json.null => 1
  | Json.bool _ => 1
  | Json.num _ => 1
  | Json.str _ => 1
  | Json.arr [] => 1
  | Json.arr (x :: xs) => 1 + fuelElems (x :: xs)
  | Json.obj [] => 1
  | Json.obj (kv :: kvs) => 1 + fuelMembers (kv :: kvs)

/-- Fuel sufficient for `parseElems` on serialized items. -/
def fuelElems : List Json → Nat
  | [] => 1
  | x :: xs => 1 + fuelVal x + fuelElems xs

/-- Fuel sufficient for `parseMembers` on serialized members. -/
def fuelMembers : List (String × Json) → Nat
  | [] => 1
  | kv :: rest => 1 + fuelVal kv.2 + fuelMembers rest
end

/-! # Claims

Each claim of the specification is settled by one theorem below (plus, where
the claim fails on the code, a concrete counterexample theorem, and for each
hypothesis-bearing theorem a concrete witness). -/

/-- An example connection record (the shape `refresh` stores). -/
def recAlphaEx : Json :=
  Json.obj [("type", Json.str "server"), ("project", Json.str "alpha"),
    ("ssh_command", Json.str "ssh alpha"), ("password", Json.str "")]

/-- A second example record with a different project and command. -/
def recBetaEx : Json :=
  Json.obj [("type", Json.str "server"), ("project", Json.str "beta"),
    ("ssh_command", Json.str "ssh beta"), ("password", Json.str "")]

/-- A two-entry connection set, displayed to the user as rows 1 and 2. -/
def connsTwoEx : Json :=
  Json.obj [("alpha@server", recAlphaEx), ("beta@server", recBetaEx)]

/-- C1: the source accepts the selection string `"0"`.  `int("0") - 1 = -1`,
and Python list indexing interprets `-1` as the *last* element, so instead
of the claimed invalid-index report the code proceeds to the confirmation
prompt for the final record — and executes its stored command on an empty
confirmation.  Selections `"3"` (= size + 1) and `"abc"` are rejected as the
claim states. -/
theorem claim_C1_zero_selection_bug :
    list_connections connsTwoEx (UserInput.text "0") (UserInput.text "") =
      ListResult.executed (Json.str "ssh beta") ∧
    list_connections connsTwoEx (UserInput.text "0") (UserInput.text "n") =
      ListResult.canceled ∧
    list_connections connsTwoEx (UserInput.text "3") (UserInput.text "") =
      ListResult.invalidIndex ∧
    list_connections connsTwoEx (UserInput.text "abc") (UserInput.text "") =
      ListResult.invalidIndex :=
  ⟨rfl, rfl, rfl, rfl⟩

/-- C2: when the HTTP interaction fails (connection error, timeout, or a
non-2xx status turned into an exception by `raise_for_status`), `refresh`
reports the fetch error and returns with the whole manager state — the
in-memory connection set and the on-disk config file — exactly as it was. -/
theorem claim_C2_fetch_failure_no_update (st : ManagerState) (env : RefreshEnv)
    (msg : String) (h : env.fetch = FetchOutcome.requestError msg) :
    refresh st env = (st, RefreshResult.fetchError msg) := by
  simp [refresh, h]

/-- Witness for C2: an HTTP 500 refresh against a populated state changes
nothing. -/
theorem claim_C2_witness :
    refresh ⟨connsTwoEx, some connsTwoEx⟩
        ⟨FetchOutcome.requestError "500 Server Error", true⟩ =
      (⟨connsTwoEx, some connsTwoEx⟩, RefreshResult.fetchError "500 Server Error") :=
  claim_C2_fetch_failure_no_update _ _ _ rfl

/-- The record a result page with no extractable fields produces. -/
def recEmptyEx : Json :=
  Json.obj [("type", Json.str ""), ("project", Json.str ""),
    ("ssh_command", Json.str ""), ("password", Json.str "")]

/-- A populated pre-refresh state used by the write-failure counterexample. -/
def stOldEx : ManagerState :=
  ⟨Json.obj [("old@x", Json.str "o")], some (Json.obj [("old@x", Json.str "o")])⟩

/-- A refresh environment whose fetch succeeds with one result record but
whose config-file write fails. -/
def envWriteFailEx : RefreshEnv :=
  ⟨FetchOutcome.success (some (Json.obj [("results", Json.arr [Json.obj []])])), false⟩

/-- C3 counterexample: on a write failure the newly computed set from the
remote response is `{"@": recEmptyEx}`, yet the in-memory set is left at its
*pre-refresh* value, which differs from the newly computed one — the
assignment `self.connections = connections` sits after `json.dump` inside
the `try`, so it is skipped when the write raises. -/
theorem claim_C3_counterexample :
    buildConnections [Json.obj []] = Except.ok [("@", recEmptyEx)] ∧
    refresh stOldEx envWriteFailEx = (stOldEx, RefreshResult.writeFailure "IOError") ∧
    (refresh stOldEx envWriteFailEx).1.connections ≠ Json.obj [("@", recEmptyEx)] := by
  refine ⟨rfl, rfl, ?_⟩
  have h : refresh stOldEx envWriteFailEx = (stOldEx, RefreshResult.writeFailure "IOError") := rfl
  rw [h]
  simp [stOldEx, recEmptyEx]

/-- C3 as amended: for every refresh whose fetch and transformation succeed
but whose config-file write fails, the failure is reported and the manager
state — in particular the in-memory connection set — is left exactly at its
pre-refresh value (the newly computed set is discarded, not installed). -/
theorem claim_C3_write_failure_keeps_old_set (st : ManagerState) (env : RefreshEnv)
    (body resultsJson : Json) (results : List Json) (conns : List (String × Json))
    (hf : env.fetch = FetchOutcome.success (some body))
    (hr : pyGet body "results" (Json.arr []) = Except.ok resultsJson)
    (hi : pyIter resultsJson = Except.ok results)
    (hb : buildConnections results = Except.ok conns)
    (hw : env.writeOk = false) :
    refresh st env = (st, RefreshResult.writeFailure "IOError") := by
  simp [refresh, hf, hr, hi, hb, hw]

/-- Witness for the amended C3 at the concrete counterexample state. -/
theorem claim_C3_witness :
    refresh stOldEx envWriteFailEx = (stOldEx, RefreshResult.writeFailure "IOError") :=
  claim_C3_write_failure_keeps_old_set _ _ _ _ _ _ rfl rfl rfl rfl rfl

/-- C6: immediately after a fully successful refresh (fetch, decode,
transformation and file write all succeed), the in-memory connection set is
the newly built dict and the JSON object on disk is identical to it. -/
theorem claim_C6_memory_disk_identical (st : ManagerState) (env : RefreshEnv)
    (body resultsJson : Json) (results : List Json) (conns : List (String × Json))
    (hf : env.fetch = FetchOutcome.success (some body))
    (hr : pyGet body "results" (Json.arr []) = Except.ok resultsJson)
    (hi : pyIter resultsJson = Except.ok results)
    (hb : buildConnections results = Except.ok conns)
    (hw : env.writeOk = true) :
    (refresh st env).1.connections = Json.obj conns ∧
    (refresh st env).1.disk = some ((refresh st env).1.connections) ∧
    (refresh st env).2 = RefreshResult.success := by
  simp [refresh, hf, hr, hi, hb, hw]

/-- A successful one-record remote response used by several witnesses. -/
def pageAlphaEx : Json :=
  Json.obj [("properties", Json.obj
    [("Project", Json.obj [("title", Json.arr
        [Json.obj [("text", Json.obj [("content", Json.str "alpha")])]])]),
     ("Type", Json.obj [("select", Json.obj [("name", Json.str "Server")])]),
     ("SSH", Json.obj [("rich_text", Json.arr
        [Json.obj [("text", Json.obj [("content", Json.str "ssh alpha")])]])])])]

/-- Witness for C6: a successful refresh of one record leaves memory and
disk holding the same single-entry object. -/
theorem claim_C6_witness :
    (refresh ⟨Json.obj [], none⟩
        ⟨FetchOutcome.success (some (Json.obj [("results", Json.arr [pageAlphaEx])])),
         true⟩).1.connections = Json.obj [("alpha@server", recAlphaEx)] ∧
    (refresh ⟨Json.obj [], none⟩
        ⟨FetchOutcome.success (some (Json.obj [("results", Json.arr [pageAlphaEx])])),
         true⟩).1.disk =
      some ((refresh ⟨Json.obj [], none⟩
        ⟨FetchOutcome.success (some (Json.obj [("results", Json.arr [pageAlphaEx])])),
         true⟩).1.connections) ∧
    (refresh ⟨Json.obj [], none⟩
        ⟨FetchOutcome.success (some (Json.obj [("results", Json.arr [pageAlphaEx])])),
         true⟩).2 = RefreshResult.success :=
  claim_C6_memory_disk_identical _ _ _ _ _ _ rfl rfl rfl rfl rfl

/-- C7: a 2xx response whose valid-JSON body lacks a `results` key, and one
whose `results` array is empty, are both treated as full success: the
in-memory set and the on-disk file are wholesale replaced by the empty
object and success is reported. -/
theorem claim_C7_missing_results_is_success :
    refresh ⟨connsTwoEx, some connsTwoEx⟩
        ⟨FetchOutcome.success (some (Json.obj [("object", Json.str "list")])), true⟩ =
      (⟨Json.obj [], some (Json.obj [])⟩, RefreshResult.success) ∧
    refresh ⟨connsTwoEx, some connsTwoEx⟩
        ⟨FetchOutcome.success (some (Json.obj [("results", Json.arr [])])), true⟩ =
      (⟨Json.obj [], some (Json.obj [])⟩, RefreshResult.success) :=
  ⟨rfl, rfl⟩

/-- C10: with no config file, `load_config` yields the empty set, and
listing an empty set reports "No SSH connections available." and returns
without prompting for anything and without executing anything (the outcome
is the same whatever the would-be prompt inputs). -/
theorem claim_C10_missing_file_empty_list :
    load_config none = Json.obj [] ∧
    (∀ sel conf : UserInput,
      list_connections (load_config none) sel conf = ListResult.noConnections) ∧
    listResultMessage ListResult.noConnections = "No SSH connections available." :=
  ⟨rfl, fun _ _ => rfl, rfl⟩

/-! ## Dictionary lemmas for the ingestion loop (claim C5) -/

theorem any_key_iff (d : List (String × Json)) (k : String) :
    (d.any fun kv => kv.1 = k) = true ↔ k ∈ d.map Prod.fst := by
  simp [List.any_eq_true, List.mem_map]

theorem dictInsert_of_not_mem (d : List (String × Json)) (k : String) (v : Json)
    (h : k ∉ d.map Prod.fst) : dictInsert d k v = d ++ [(k, v)] := by
  rw [dictInsert, if_neg]
  intro hany
  exact h ((any_key_iff d k).mp hany)

theorem dictInsert_of_mem (d : List (String × Json)) (k : String) (v : Json)
    (h : k ∈ d.map Prod.fst) :
    dictInsert d k v = d.map (fun kv => if kv.1 = k then (k, v) else kv) := by
  rw [dictInsert, if_pos ((any_key_iff d k).mpr h)]

theorem lookupKey_append (d d2 : List (String × Json)) (key : String) :
    lookupKey (d ++ d2) key =
      match lookupKey d key with
      | some x => some x
      | none => lookupKey d2 key := by
  induction d with
  | nil => simp [lookupKey]
  | cons kv rest ih =>
    obtain ⟨a, b⟩ := kv
    by_cases h : a = key
    · simp [lookupKey, h]
    · simp [lookupKey, h, ih]

theorem lookupKey_eq_none (d : List (String × Json)) (k : String)
    (h : k ∉ d.map Prod.fst) : lookupKey d k = none := by
  induction d with
  | nil => rfl
  | cons kv rest ih =>
    obtain ⟨a, b⟩ := kv
    simp only [List.map_cons, List.mem_cons, not_or] at h
    have hak : ¬ a = k := fun hh => h.1 hh.symm
    simp [lookupKey, hak, ih h.2]

theorem lookupKey_map_repl_ne (d : List (String × Json)) (k : String) (v : Json)
    (key : String) (hne : key ≠ k) :
    lookupKey (d.map fun kv => if kv.1 = k then (k, v) else kv) key =
      lookupKey d key := by
  induction d with
  | nil => rfl
  | cons kv rest ih =>
    obtain ⟨a, b⟩ := kv
    simp only [List.map_cons]
    by_cases hak : a = k
    · rw [show (if ((a, b) : String × Json).1 = k then (k, v) else (a, b)) = (k, v) from
        if_pos hak]
      have h1 : ¬ k = key := fun hh => hne hh.symm
      have h2 : ¬ a = key := by rw [hak]; exact h1
      simp [lookupKey, h1, h2, ih]
    · rw [show (if ((a, b) : String × Json).1 = k then (k, v) else (a, b)) = (a, b) from
        if_neg hak]
      by_cases hay : a = key
      · simp [lookupKey, hay]
      · simp [lookupKey, hay, ih]

theorem lookupKey_map_repl_eq (d : List (String × Json)) (k : String) (v : Json)
    (hmem : k ∈ d.map Prod.fst) :
    lookupKey (d.map fun kv => if kv.1 = k then (k, v) else kv) k = some v := by
  induction d with
  | nil => simp at hmem
  | cons kv rest ih =>
    obtain ⟨a, b⟩ := kv
    simp only [List.map_cons]
    by_cases hak : a = k
    · rw [show (if ((a, b) : String × Json).1 = k then (k, v) else (a, b)) = (k, v) from
        if_pos hak]
      simp [lookupKey]
    · rw [show (if ((a, b) : String × Json).1 = k then (k, v) else (a, b)) = (a, b) from
        if_neg hak]
      simp only [List.map_cons, List.mem_cons] at hmem
      rcases hmem with hmem | hmem
      · exact absurd hmem.symm hak
      · simp [lookupKey, hak, ih hmem]

theorem lookupKey_dictInsert (d : List (String × Json)) (k : String) (v : Json)
    (key : String) :
    lookupKey (dictInsert d k v) key = if key = k then some v else lookupKey d key := by
  by_cases hmem : k ∈ d.map Prod.fst
  · rw [dictInsert_of_mem d k v hmem]
    by_cases hk : key = k
    · subst hk
      simp [lookupKey_map_repl_eq d key v hmem]
    · simp [hk, lookupKey_map_repl_ne d k v key hk]
  · rw [dictInsert_of_not_mem d k v hmem, lookupKey_append]
    by_cases hk : key = k
    · subst hk
      simp [lookupKey_eq_none d key hmem, lookupKey]
    · have hne : ¬ k = key := fun hh => hk hh.symm
      simp only [if_neg hk]
      cases h : lookupKey d key
      · simp [lookupKey, hne]
      · simp

theorem dictInsert_length (d : List (String × Json)) (k : String) (v : Json) :
    (dictInsert d k v).length =
      if k ∈ d.map Prod.fst then d.length else d.length + 1 := by
  by_cases hmem : k ∈ d.map Prod.fst
  · rw [dictInsert_of_mem d k v hmem]
    simp [hmem]
  · rw [dictInsert_of_not_mem d k v hmem]
    simp [hmem]

theorem keys_dictInsert (d : List (String × Json)) (k : String) (v : Json) :
    (dictInsert d k v).map Prod.fst =
      if k ∈ d.map Prod.fst then d.map Prod.fst else d.map Prod.fst ++ [k] := by
  by_cases hmem : k ∈ d.map Prod.fst
  · rw [dictInsert_of_mem d k v hmem, if_pos hmem, List.map_map]
    apply List.map_congr_left
    intro kv _
    by_cases h : kv.1 = k <;> simp [h]
  · rw [dictInsert_of_not_mem d k v hmem, if_neg hmem]
    simp

theorem foldIns_length_le (entries : List (String × Json)) :
    ∀ d : List (String × Json),
      (entries.foldl (fun d e => dictInsert d e.1 e.2) d).length ≤
        d.length + entries.length := by
  induction entries with
  | nil => intro d; simp
  | cons e rest ih =>
    intro d
    simp only [List.foldl_cons, List.length_cons]
    calc (rest.foldl (fun d e => dictInsert d e.1 e.2) (dictInsert d e.1 e.2)).length
        ≤ (dictInsert d e.1 e.2).length + rest.length := ih _
      _ ≤ d.length + (rest.length + 1) := by
          rw [dictInsert_length]
          split <;> omega

theorem foldIns_length_eq_iff (entries : List (String × Json)) :
    ∀ d : List (String × Json), (d.map Prod.fst).Nodup →
      ((entries.foldl (fun d e => dictInsert d e.1 e.2) d).length =
          d.length + entries.length ↔
        (d.map Prod.fst ++ entries.map Prod.fst).Nodup) := by
  induction entries with
  | nil => intro d hd; simp [hd]
  | cons e rest ih =>
    intro d hd
    simp only [List.foldl_cons, List.length_cons, List.map_cons]
    by_cases hmem : e.1 ∈ d.map Prod.fst
    · have hlen : (dictInsert d e.1 e.2).length = d.length := by
        rw [dictInsert_length, if_pos hmem]
      constructor
      · intro h
        exfalso
        have hle := foldIns_length_le rest (dictInsert d e.1 e.2)
        rw [hlen] at hle
        omega
      · intro h
        exfalso
        rcases List.nodup_append.mp h with ⟨_, _, hdisj⟩
        exact hdisj hmem (List.mem_cons_self _ _)
    · have hlen : (dictInsert d e.1 e.2).length = d.length + 1 := by
        rw [dictInsert_length, if_neg hmem]
      have hkeys : (dictInsert d e.1 e.2).map Prod.fst = d.map Prod.fst ++ [e.1] := by
        rw [keys_dictInsert, if_neg hmem]
      have hnodup : ((dictInsert d e.1 e.2).map Prod.fst).Nodup := by
        rw [hkeys]
        refine List.Nodup.append hd (List.nodup_singleton _) ?_
        intro a ha hb
        simp at hb
        subst hb
        exact hmem ha
      have := ih (dictInsert d e.1 e.2) hnodup
      rw [hkeys, hlen] at this
      rw [show d.length + (rest.length + 1) = d.length + 1 + rest.length by omega]
      rw [this, List.append_assoc, List.singleton_append]

theorem lookup_foldIns (entries : List (String × Json)) :
    ∀ (d : List (String × Json)) (key : String),
      lookupKey (entries.foldl (fun d e => dictInsert d e.1 e.2) d) key =
        match entries.reverse.find? (fun e => e.1 = key) with
        | some e => some e.2
        | none => lookupKey d key := by
  induction entries with
  | nil => intro d key; simp
  | cons e rest ih =>
    intro d key
    simp only [List.foldl_cons, List.reverse_cons, List.find?_append]
    rw [ih]
    cases hfind : rest.reverse.find? (fun e => e.1 = key) with
    | some x => simp [Option.or]
    | none =>
      simp only [Option.or, lookupKey_dictInsert]
      by_cases hk : e.1 = key
      · simp [List.find?, hk, if_pos hk.symm]
      · have : ¬ key = e.1 := fun hh => hk hh.symm
        simp [List.find?, hk, this]

theorem pageEntries_ok_length (pages : List Json) :
    ∀ entries : List (String × Json),
      pageEntries pages = Except.ok entries → entries.length = pages.length := by
  induction pages with
  | nil =>
    intro entries h
    simp [pageEntries] at h
    simp [← h]
  | cons p ps ih =>
    intro entries h
    rw [pageEntries] at h
    cases hp : pageEntry p with
    | error msg => simp [hp, bind, Except.bind] at h
    | ok e =>
      simp only [hp, bind, Except.bind] at h
      cases hps : pageEntries ps with
      | error msg => simp [hps] at h
      | ok es =>
        simp only [hps, pure, Except.pure, Except.ok.injEq] at h
        subst h
        simp [ih es hps]

theorem buildConnectionsAux_eq_foldIns (pages : List Json) :
    ∀ (entries d : List (String × Json)),
      pageEntries pages = Except.ok entries →
      buildConnectionsAux d pages =
        Except.ok (entries.foldl (fun d e => dictInsert d e.1 e.2) d) := by
  induction pages with
  | nil =>
    intro entries d h
    simp [pageEntries] at h
    subst h
    simp [buildConnectionsAux]
  | cons p ps ih =>
    intro entries d h
    rw [pageEntries] at h
    cases hp : pageEntry p with
    | error msg => simp [hp, bind, Except.bind] at h
    | ok e =>
      simp only [hp, bind, Except.bind] at h
      cases hps : pageEntries ps with
      | error msg => simp [hps] at h
      | ok es =>
        simp only [hps, pure, Except.pure, Except.ok.injEq] at h
        subst h
        rw [buildConnectionsAux]
        simp only [hp, bind, Except.bind]
        rw [ih es (dictInsert d e.1 e.2) hps]
        simp

/-- C5: if every page of an N-record remote response transforms successfully
(with `entries` the successive `(key, record)` pairs, keys being
`"project@type"` strings), then the ingestion loop builds exactly the
last-write-wins dict of those entries: it has at most N entries, strictly
fewer iff duplicate keys occur, and each key maps to the record of the
*last* response entry bearing it. -/
theorem claim_C5_key_dedup_last_write_wins (pages : List Json)
    (entries : List (String × Json))
    (h : pageEntries pages = Except.ok entries) :
    buildConnections pages = Except.ok (dedupMembers entries) ∧
    (dedupMembers entries).length ≤ pages.length ∧
    ((dedupMembers entries).length < pages.length ↔
      ¬ (entries.map Prod.fst).Nodup) ∧
    ∀ key, lookupKey (dedupMembers entries) key =
      (entries.reverse.find? (fun e => e.1 = key)).map Prod.snd := by
  have hlen := pageEntries_ok_length pages entries h
  have hbuild : buildConnections pages = Except.ok (dedupMembers entries) :=
    buildConnectionsAux_eq_foldIns pages entries [] h
  have hle : (dedupMembers entries).length ≤ entries.length := by
    have := foldIns_length_le entries []
    simpa [dedupMembers] using this
  have heq : (dedupMembers entries).length = entries.length ↔
      (entries.map Prod.fst).Nodup := by
    have := foldIns_length_eq_iff entries [] (by simp)
    simpa [dedupMembers] using this
  refine ⟨hbuild, by omega, ?_, ?_⟩
  · constructor
    · intro hlt hnodup
      have := heq.mpr hnodup
      omega
    · intro hnotnodup
      rcases Nat.lt_or_ge (dedupMembers entries).length entries.length with hlt | hge
      · omega
      · exfalso
        exact hnotnodup (heq.mp (by omega))
  · intro key
    have := lookup_foldIns entries [] key
    simp only [dedupMembers]
    rw [this]
    cases hfind : entries.reverse.find? (fun e => e.1 = key) <;> simp [lookupKey]

/-- A result page that duplicates `pageAlphaEx`'s key `"alpha@server"` with
a different command. -/
def pageAlphaDupEx : Json :=
  Json.obj [("properties", Json.obj
    [("Project", Json.obj [("title", Json.arr
        [Json.obj [("text", Json.obj [("content", Json.str "alpha")])]])]),
     ("Type", Json.obj [("select", Json.obj [("name", Json.str "Server")])]),
     ("SSH", Json.obj [("rich_text", Json.arr
        [Json.obj [("text", Json.obj [("content", Json.str "ssh alpha-2")])]])])])]

/-- The record `pageAlphaDupEx` transforms to. -/
def recAlphaDupEx : Json :=
  Json.obj [("type", Json.str "server"), ("project", Json.str "alpha"),
    ("ssh_command", Json.str "ssh alpha-2"), ("password", Json.str "")]

/-- Witness for C5: two records that both resolve to `"alpha@server"`
produce a one-entry set holding the record the API returned last. -/
theorem claim_C5_witness :
    buildConnections [pageAlphaEx, pageAlphaDupEx] =
      Except.ok (dedupMembers
        [("alpha@server", recAlphaEx), ("alpha@server", recAlphaDupEx)]) ∧
    (dedupMembers [("alpha@server", recAlphaEx), ("alpha@server", recAlphaDupEx)]).length ≤
      ([pageAlphaEx, pageAlphaDupEx] : List Json).length ∧
    ((dedupMembers [("alpha@server", recAlphaEx), ("alpha@server", recAlphaDupEx)]).length <
        ([pageAlphaEx, pageAlphaDupEx] : List Json).length ↔
      ¬ ((["alpha@server", "alpha@server"] : List String)).Nodup) ∧
    ∀ key, lookupKey (dedupMembers
        [("alpha@server", recAlphaEx), ("alpha@server", recAlphaDupEx)]) key =
      (([("alpha@server", recAlphaEx),
         ("alpha@server", recAlphaDupEx)] : List (String × Json)).reverse.find?
          (fun e => e.1 = key)).map Prod.snd := by
  have h := claim_C5_key_dedup_last_write_wins [pageAlphaEx, pageAlphaDupEx]
    [("alpha@server", recAlphaEx), ("alpha@server", recAlphaDupEx)] rfl
  exact ⟨h.1, h.2.1, by simpa using h.2.2.1, h.2.2.2⟩

/-! ## Lemmas for the selection/confirmation flow (claim C9) -/

theorem pyListGet_nil {α : Type} (i : Int) : pyListGet ([] : List α) i = none := by
  simp only [pyListGet]
  split <;> simp

theorem pyListGet_mem {α : Type} (xs : List α) (i : Int) (a : α)
    (h : pyListGet xs i = some a) : a ∈ xs := by
  simp only [pyListGet] at h
  split at h
  · split at h
    · exact absurd h (by simp)
    · exact List.get?_mem h
  · exact List.get?_mem h

theorem except_bind_isOk {e : Except String Json} {f : Json → Except String Unit}
    (h : (e >>= f).isOk = true) : ∃ a, e = Except.ok a ∧ (f a).isOk = true := by
  cases he : e with
  | error msg => rw [he] at h; simp [bind, Except.bind, Except.isOk, Except.toBool] at h
  | ok a => rw [he] at h; exact ⟨a, rfl, h⟩

theorem renderRow_fields (v : Json) (h : (renderRow v).isOk = true) :
    (∃ a, pyGetItem v "project" = Except.ok a) ∧
    (∃ a, pyGetItem v "ssh_command" = Except.ok a) ∧
    (∃ a, pyGetItem v "type" = Except.ok a) ∧
    (∃ a, pyGetItem v "password" = Except.ok a) := by
  rw [renderRow] at h
  obtain ⟨a1, ha1, h⟩ := except_bind_isOk h
  obtain ⟨a2, ha2, h⟩ := except_bind_isOk h
  obtain ⟨a3, ha3, h⟩ := except_bind_isOk h
  obtain ⟨a4, ha4, _⟩ := except_bind_isOk h
  exact ⟨⟨a1, ha1⟩, ⟨a2, ha2⟩, ⟨a3, ha3⟩, ⟨a4, ha4⟩⟩

theorem renderTable_ok (kvs : List (String × Json))
    (h : ∀ kv ∈ kvs, (renderRow kv.2).isOk = true) :
    renderTable kvs = Except.ok () := by
  induction kvs with
  | nil => rfl
  | cons kv rest ih =>
    have h1 := h kv (List.mem_cons_self _ _)
    have hrow : renderRow kv.2 = Except.ok () := by
      cases hr : renderRow kv.2 with
      | error msg => rw [hr] at h1; simp [Except.isOk, Except.toBool] at h1
      | ok u => cases u; rfl
    rw [renderTable]
    simp only [hrow, bind, Except.bind]
    exact ih fun kv2 hkv2 => h kv2 (List.mem_cons_of_mem _ hkv2)

/-- C9: once a valid 1-based index has been selected from a well-formed
connection table, the stored `ssh_command` is executed if and only if the
confirmation input is exactly the empty string; any other entered string
produces the cancellation report and no execution. -/
theorem claim_C9_empty_confirmation_executes (kvs : List (String × Json))
    (hwf : ∀ kv ∈ kvs, (renderRow kv.2).isOk = true)
    (s : String) (i : Int) (hs : pyInt s = some i) (_hpos : 1 ≤ i)
    (conn : Json) (hconn : pyListGet (kvs.map Prod.snd) (i - 1) = some conn) :
    ∃ cmd, pyGetItem conn "ssh_command" = Except.ok cmd ∧
      ∀ confirm : String,
        (list_connections (Json.obj kvs) (UserInput.text s) (UserInput.text confirm) =
          if confirm = "" then ListResult.executed cmd else ListResult.canceled) ∧
        (list_connections (Json.obj kvs) (UserInput.text s) (UserInput.text confirm) =
            ListResult.executed cmd ↔ confirm = "") := by
  have hmem : conn ∈ kvs.map Prod.snd := pyListGet_mem _ _ _ hconn
  obtain ⟨kv, hkv, hkveq⟩ := List.mem_map.mp hmem
  have hrow := hwf kv hkv
  rw [hkveq] at hrow
  obtain ⟨⟨p, hp⟩, ⟨cmd, hcmd⟩, ⟨t, ht⟩, _⟩ := renderRow_fields conn hrow
  have hne : kvs ≠ [] := by
    intro hnil
    subst hnil
    simp at hmem
  have htr : truthy (Json.obj kvs) = true := by simp [truthy, hne]
  refine ⟨cmd, hcmd, fun confirm => ?_⟩
  have hmain : list_connections (Json.obj kvs) (UserInput.text s) (UserInput.text confirm) =
      if confirm = "" then ListResult.executed cmd else ListResult.canceled := by
    rw [list_connections, if_pos htr]
    simp only [renderTable_ok kvs hwf, hs, hconn, hp, ht, hcmd]
  refine ⟨hmain, ?_⟩
  rw [hmain]
  by_cases hcf : confirm = ""
  · simp [hcf]
  · simp [hcf]

/-- Witness for C9 at the two-entry example set: selecting row 1, an empty
confirmation executes `recAlphaEx`'s command and `"n"` cancels. -/
theorem claim_C9_witness :
    ∃ cmd, pyGetItem recAlphaEx "ssh_command" = Except.ok cmd ∧
      ∀ confirm : String,
        (list_connections connsTwoEx (UserInput.text "1") (UserInput.text confirm) =
          if confirm = "" then ListResult.executed cmd else ListResult.canceled) ∧
        (list_connections connsTwoEx (UserInput.text "1") (UserInput.text confirm) =
            ListResult.executed cmd ↔ confirm = "") := by
  have h := claim_C9_empty_confirmation_executes
    [("alpha@server", recAlphaEx), ("beta@server", recBetaEx)]
    (by intro kv hkv; fin_cases hkv <;> rfl)
    "1" 1 rfl (by omega) recAlphaEx rfl
  exact h

/-! ## Defensive extraction (claim C4) -/

/-- A result page whose `properties.Project.title` sequence is present and
non-empty but holds a number instead of a rich-text object. -/
def badTitlePageEx : Json :=
  Json.obj [("properties", Json.obj
    [("Project", Json.obj [("title", Json.arr [Json.num 5])])])]

/-- C4 counterexample: field extraction *can* raise.  On a record whose
`title` sequence holds the number `5`, the source evaluates
`project_property[0].get('text', {})` on an `int`, which raises an uncaught
`AttributeError` — so "field extraction never raises" is false as a
universal statement about result records. -/
theorem claim_C4_counterexample :
    extractProject (Json.obj [("Project", Json.obj [("title", Json.arr [Json.num 5])])]) =
      Except.error "AttributeError" ∧
    pageEntry badTitlePageEx = Except.error "AttributeError" :=
  ⟨rfl, rfl⟩

theorem extractTextContent_missing_prop (props : List (String × Json))
    (propName listField : String) (h : lookupKey props propName = none) :
    extractTextContent (Json.obj props) propName listField =
      Except.ok (Json.str "") := by
  rw [extractTextContent]
  simp [pyGet, h, lookupKey, truthy, bind, Except.bind, pure, Except.pure]

theorem extractTextContent_empty_list (props inner : List (String × Json))
    (propName listField : String)
    (hp : lookupKey props propName = some (Json.obj inner))
    (hl : lookupKey inner listField = none ∨
      lookupKey inner listField = some (Json.arr [])) :
    extractTextContent (Json.obj props) propName listField =
      Except.ok (Json.str "") := by
  rw [extractTextContent]
  rcases hl with hl | hl <;>
    simp [pyGet, hp, hl, truthy, bind, Except.bind, pure, Except.pure]

theorem extractType_missing (props : List (String × Json))
    (h : lookupKey props "Type" = none) :
    extractType (Json.obj props) = Except.ok (Json.str "") := by
  rw [extractType]
  simp [pyGet, h, lookupKey, truthy, bind, Except.bind, pure, Except.pure]

theorem extractType_absent_select (props inner : List (String × Json))
    (hp : lookupKey props "Type" = some (Json.obj inner))
    (hl : lookupKey inner "select" = none ∨ lookupKey inner "select" = some Json.null ∨
      lookupKey inner "select" = some (Json.obj [])) :
    extractType (Json.obj props) = Except.ok (Json.str "") := by
  rw [extractType]
  rcases hl with hl | hl | hl <;>
    simp [pyGet, hp, hl, truthy, bind, Except.bind, pure, Except.pure]

/-- C4 as amended: extraction never raises *on account of missing or empty
structure* — a record with no `properties`, a properties dict missing a
field, an empty `title`/`rich_text` sequence, or an absent/null/empty
`select` all yield `""` for the affected field (a whole-record empty page
yields the all-empty record under key `"@"`); extraction can only raise when
a *present* nested value is ill-typed (see the counterexample). -/
theorem claim_C4_missing_or_empty_yields_empty_string :
    (∀ kvs : List (String × Json), lookupKey kvs "properties" = none →
      pageEntry (Json.obj kvs) = Except.ok ("@", recEmptyEx)) ∧
    (∀ props : List (String × Json), lookupKey props "Project" = none →
      extractProject (Json.obj props) = Except.ok (Json.str "")) ∧
    (∀ (props inner : List (String × Json)),
      lookupKey props "Project" = some (Json.obj inner) →
      (lookupKey inner "title" = none ∨ lookupKey inner "title" = some (Json.arr [])) →
      extractProject (Json.obj props) = Except.ok (Json.str "")) ∧
    (∀ props : List (String × Json), lookupKey props "SSH" = none →
      extractSsh (Json.obj props) = Except.ok (Json.str "")) ∧
    (∀ (props inner : List (String × Json)),
      lookupKey props "SSH" = some (Json.obj inner) →
      (lookupKey inner "rich_text" = none ∨
        lookupKey inner "rich_text" = some (Json.arr [])) →
      extractSsh (Json.obj props) = Except.ok (Json.str "")) ∧
    (∀ props : List (String × Json), lookupKey props "Type" = none →
      extractType (Json.obj props) = Except.ok (Json.str "")) ∧
    (∀ (props inner : List (String × Json)),
      lookupKey props "Type" = some (Json.obj inner) →
      (lookupKey inner "select" = none ∨ lookupKey inner "select" = some Json.null ∨
        lookupKey inner "select" = some (Json.obj [])) →
      extractType (Json.obj props) = Except.ok (Json.str "")) ∧
    (∀ props : List (String × Json), lookupKey props "password" = none →
      extractPassword (Json.obj props) = Except.ok (Json.str "")) ∧
    (∀ (props inner : List (String × Json)),
      lookupKey props "password" = some (Json.obj inner) →
      (lookupKey inner "rich_text" = none ∨
        lookupKey inner "rich_text" = some (Json.arr [])) →
      extractPassword (Json.obj props) = Except.ok (Json.str "")) := by
  refine ⟨?_, ?_, ?_, ?_, ?_, ?_, ?_, ?_, ?_⟩
  · intro kvs h
    rw [pageEntry]
    simp only [pyGet, h, bind, Except.bind, Option.getD]
    rw [show extractProject (Json.obj []) = Except.ok (Json.str "") from rfl,
      show extractSsh (Json.obj []) = Except.ok (Json.str "") from rfl,
      show extractType (Json.obj []) = Except.ok (Json.str "") from rfl,
      show extractPassword (Json.obj []) = Except.ok (Json.str "") from rfl]
    rfl
  · intro props h
    exact extractTextContent_missing_prop props "Project" "title" h
  · intro props inner hp hl
    exact extractTextContent_empty_list props inner "Project" "title" hp hl
  · intro props h
    exact extractTextContent_missing_prop props "SSH" "rich_text" h
  · intro props inner hp hl
    exact extractTextContent_empty_list props inner "SSH" "rich_text" hp hl
  · intro props h
    exact extractType_missing props h
  · intro props inner hp hl
    exact extractType_absent_select props inner hp hl
  · intro props h
    exact extractTextContent_missing_prop props "password" "rich_text" h
  · intro props inner hp hl
    exact extractTextContent_empty_list props inner "password" "rich_text" hp hl

/-- Witness for C4: a record with an *empty* `title` sequence yields
`project = ""` (the claim's "in particular" scenario), and a record with no
`properties` at all transforms to the all-empty record. -/
theorem claim_C4_witness :
    extractProject (Json.obj [("Project", Json.obj [("title", Json.arr [])])]) =
      Except.ok (Json.str "") ∧
    pageEntry (Json.obj [("id", Json.str "deadbeef")]) =
      Except.ok ("@", recEmptyEx) :=
  ⟨claim_C4_missing_or_empty_yields_empty_string.2.2.1
      [("Project", Json.obj [("title", Json.arr [])])] [("title", Json.arr [])]
      rfl (Or.inr rfl),
    claim_C4_missing_or_empty_yields_empty_string.1 [("id", Json.str "deadbeef")] rfl⟩

/-! ## Round-trip lemmas for the byte-level config model (claim C8) -/

theorem skipWs_append_ws (ws cs : List Char) (h : ∀ c ∈ ws, isWsChar c = true) :
    skipWs (ws ++ cs) = skipWs cs := by
  induction ws with
  | nil => rfl
  | cons c rest ih =>
    have hc := h c (List.mem_cons_self _ _)
    simp only [List.cons_append, skipWs, hc, if_pos]
    exact ih fun c2 hc2 => h c2 (List.mem_cons_of_mem _ hc2)

theorem skipWs_not_ws (c : Char) (cs : List Char) (h : isWsChar c = false) :
    skipWs (c :: cs) = c :: cs := by
  simp [skipWs, h]

theorem indentChars_ws (n : Nat) : ∀ c ∈ indentChars n, isWsChar c = true := by
  intro c hc
  rw [indentChars] at hc
  rw [List.eq_of_mem_replicate hc]
  rfl

theorem toNat_ofNat_small (n : Nat) (h : n < 128) : (Char.ofNat n).toNat = n := by
  unfold Char.ofNat
  rw [dif_pos (Or.inl (by omega : n < 0xd800))]
  rfl

theorem digitChar_isDigit (d : Nat) (h : d < 10) :
    (Char.ofNat (48 + d)).isDigit = true := by
  interval_cases d <;> decide

theorem escChar_plain (c : Char) (h : plainChar c = true) : escChar c = [c] := by
  rw [plainChar] at h
  simp at h
  obtain ⟨⟨⟨h1, _⟩, h3⟩, h4⟩ := h
  have hn : ¬ c = '\n' := by intro hc; subst hc; exact absurd h1 (by decide)
  have ht : ¬ c = '\t' := by intro hc; subst hc; exact absurd h1 (by decide)
  have hr : ¬ c = '\r' := by intro hc; subst hc; exact absurd h1 (by decide)
  rw [escChar, if_neg h3, if_neg h4, if_neg hn, if_neg ht, if_neg hr]

theorem flatten_escChar_plain (cs : List Char) (h : ∀ c ∈ cs, plainChar c = true) :
    (cs.map escChar).flatten = cs := by
  induction cs with
  | nil => rfl
  | cons c rest ih =>
    simp [escChar_plain c (h c (List.mem_cons_self _ _)),
      ih fun c2 hc2 => h c2 (List.mem_cons_of_mem _ hc2)]

theorem dumpString_plain (s : String) (h : plainStr s = true) :
    dumpString s = '"' :: (s.data ++ ['"']) := by
  rw [plainStr] at h
  rw [dumpString, flatten_escChar_plain s.data (by simpa using h)]
  simp

theorem parseStringBody_plain (cs rest : List Char)
    (h : ∀ c ∈ cs, plainChar c = true) :
    parseStringBody (cs ++ '"' :: rest) = some (cs, rest) := by
  induction cs with
  | nil =>
    rw [List.nil_append, parseStringBody.eq_def]
    rfl
  | cons c cs' ih =>
    have hc := h c (List.mem_cons_self _ _)
    rw [plainChar] at hc
    simp at hc
    obtain ⟨⟨_, h3⟩, h4⟩ := hc
    rw [List.cons_append, parseStringBody.eq_def]
    simp only [if_neg h3, if_neg h4]
    rw [ih fun c2 hc2 => h c2 (List.mem_cons_of_mem _ hc2)]
    rfl

theorem natChars_digit (m : Nat) : ∀ c ∈ natChars m, c.isDigit = true := by
  induction m using Nat.strong_induction_on with
  | _ m ih =>
    intro c hc
    rw [natChars] at hc
    by_cases hlt : m < 10
    · rw [if_pos hlt] at hc
      simp only [List.mem_singleton] at hc
      subst hc
      exact digitChar_isDigit m hlt
    · rw [if_neg hlt] at hc
      rcases List.mem_append.mp hc with hc | hc
      · exact ih (m / 10) (Nat.div_lt_self (by omega) (by omega)) c hc
      · simp only [List.mem_singleton] at hc
        subst hc
        exact digitChar_isDigit (m % 10) (by omega)

theorem natChars_ne_nil (m : Nat) : natChars m ≠ [] := by
  rw [natChars]
  by_cases hlt : m < 10
  · rw [if_pos hlt]
    simp
  · rw [if_neg hlt]
    simp

theorem digitsVal_append_one (ds : List Char) (c : Char) :
    digitsVal (ds ++ [c]) = 10 * digitsVal ds + (c.toNat - 48) := by
  rw [digitsVal, digitsVal, List.foldl_append]
  rfl

theorem natChars_val (m : Nat) : digitsVal (natChars m) = m := by
  induction m using Nat.strong_induction_on with
  | _ m ih =>
    rw [natChars]
    by_cases hlt : m < 10
    · rw [if_pos hlt]
      rw [digitsVal]
      simp only [List.foldl_cons, List.foldl_nil]
      rw [toNat_ofNat_small (48 + m) (by omega)]
      omega
    · rw [if_neg hlt]
      rw [digitsVal_append_one]
      rw [ih (m / 10) (Nat.div_lt_self (by omega) (by omega))]
      rw [toNat_ofNat_small (48 + m % 10) (by omega)]
      omega

/-- A list that does not begin with a decimal digit (so a serialized number
followed by it cannot be over-consumed). -/
def nonDigitStart : List Char → Prop
  | [] => True
  | c :: _ => c.isDigit = false

theorem takeDigits_exact (ds : List Char) (rest : List Char)
    (hd : ∀ c ∈ ds, c.isDigit = true) (hr : nonDigitStart rest) :
    takeDigits (ds ++ rest) = (ds, rest) := by
  induction ds with
  | nil =>
    cases rest with
    | nil => rfl
    | cons c t =>
      rw [nonDigitStart] at hr
      simp [takeDigits, hr]
  | cons c ds' ih =>
    have hc := hd c (List.mem_cons_self _ _)
    rw [List.cons_append, takeDigits, if_pos hc,
      ih fun c2 hc2 => hd c2 (List.mem_cons_of_mem _ hc2)]

theorem natChars_cons (m : Nat) : ∃ c t, natChars m = c :: t := by
  cases h : natChars m with
  | nil => exact absurd h (natChars_ne_nil m)
  | cons c t => exact ⟨c, t, rfl⟩

theorem parseNumber_natChars (m : Nat) (rest : List Char) (hr : nonDigitStart rest) :
    parseNumber (natChars m ++ rest) = some (Int.ofNat m, rest) := by
  have htd : takeDigits (natChars m ++ rest) = (natChars m, rest) :=
    takeDigits_exact (natChars m) rest (natChars_digit m) hr
  obtain ⟨c, t, hct⟩ := natChars_cons m
  have hcd : c.isDigit = true := by
    apply natChars_digit m
    rw [hct]
    exact List.mem_cons_self _ _
  have hcm : ¬ c = '-' := by
    intro hc
    rw [hc] at hcd
    exact absurd hcd (by decide)
  rw [hct] at htd
  rw [hct, List.cons_append, parseNumber.eq_def]
  simp only [if_neg hcm]
  rw [← List.cons_append, htd]
  have hval : digitsVal (c :: t) = m := by
    rw [← hct, natChars_val]
  simp [hval]

theorem parseNumber_negSucc (m : Nat) (rest : List Char) (hr : nonDigitStart rest) :
    parseNumber (('-' :: natChars (m + 1)) ++ rest) = some (Int.negSucc m, rest) := by
  have htd : takeDigits (natChars (m + 1) ++ rest) = (natChars (m + 1), rest) :=
    takeDigits_exact (natChars (m + 1)) rest (natChars_digit (m + 1)) hr
  obtain ⟨c, t, hct⟩ := natChars_cons (m + 1)
  rw [List.cons_append, parseNumber.eq_def]
  simp only [if_pos rfl]
  rw [htd, hct]
  have hval : digitsVal (c :: t) = m + 1 := by
    rw [← hct, natChars_val]
  simp [hval]
  rw [Int.negSucc_eq]
  ring

theorem isDigit_not_special (c : Char) (h : c.isDigit = true) :
    isWsChar c = false ∧ ¬ c = ']' ∧ ¬ c = lbrace ∧ ¬ c = '[' ∧ ¬ c = '"' ∧
      ¬ c = 't' ∧ ¬ c = 'f' ∧ ¬ c = 'n' ∧ ¬ c = rbrace ∧ ¬ c = ',' := by
  have hsp : ¬ c = ' ' := by intro hc; rw [hc] at h; exact absurd h (by decide)
  have hnl : ¬ c = '\n' := by intro hc; rw [hc] at h; exact absurd h (by decide)
  have htb : ¬ c = '\t' := by intro hc; rw [hc] at h; exact absurd h (by decide)
  have hcr : ¬ c = '\r' := by intro hc; rw [hc] at h; exact absurd h (by decide)
  refine ⟨?_, ?_, ?_, ?_, ?_, ?_, ?_, ?_, ?_, ?_⟩
  · rw [isWsChar]
    simp [hsp, hnl, htb, hcr]
  · intro hc; rw [hc] at h; exact absurd h (by decide)
  · intro hc; rw [hc] at h; exact absurd h (by decide)
  · intro hc; rw [hc] at h; exact absurd h (by decide)
  · intro hc; rw [hc] at h; exact absurd h (by decide)
  · intro hc; rw [hc] at h; exact absurd h (by decide)
  · intro hc; rw [hc] at h; exact absurd h (by decide)
  · intro hc; rw [hc] at h; exact absurd h (by decide)
  · intro hc; rw [hc] at h; exact absurd h (by decide)
  · intro hc; rw [hc] at h; exact absurd h (by decide)

theorem parseVal_obj_dispatch (f : Nat) (cs : List Char) :
    parseVal (f + 1) (lbrace :: cs) =
      (match skipWs cs with
       | [] => none
       | c2 :: rest2 =>
         if c2 = rbrace then some (Json.obj [], rest2)
         else (parseMembers f cs).map (fun r => (Json.obj (dedupMembers r.1), r.2))) :=
  rfl

theorem parseVal_arr_dispatch (f : Nat) (cs : List Char) :
    parseVal (f + 1) ('[' :: cs) =
      (match skipWs cs with
       | ']' :: rest2 => some (Json.arr [], rest2)
       | _ => (parseElems f cs).map (fun r => (Json.arr r.1, r.2))) :=
  rfl

theorem parseVal_str_dispatch (f : Nat) (cs : List Char) :
    parseVal (f + 1) ('"' :: cs) =
      (parseStringBody cs).map (fun r => (Json.str (String.mk r.1), r.2)) :=
  rfl

/-- Dispatch of `parseVal` on the first non-whitespace character
(definitionally the body of `parseVal` for a non-empty stripped input). -/
def parseValStep (fuel : Nat) (c : Char) (cs' : List Char) : Option (Json × List Char) :=
    if c = lbrace then
      match skipWs cs' with
      | [] => none
      | c2 :: rest2 =>
        if c2 = rbrace then some (Json.obj [], rest2)
        else (parseMembers fuel cs').map (fun r => (Json.obj (dedupMembers r.1), r.2))
    else if c = '[' then
      match skipWs cs' with
      | ']' :: rest2 => some (Json.arr [], rest2)
      | _ => (parseElems fuel cs').map (fun r => (Json.arr r.1, r.2))
    else if c = '"' then
      (parseStringBody cs').map (fun r => (Json.str (String.mk r.1), r.2))
    else if c = 't' then
      match cs' with
      | 'r' :: 'u' :: 'e' :: rest => some (Json.bool true, rest)
      | _ => none
    else if c = 'f' then
      match cs' with
      | 'a' :: 'l' :: 's' :: 'e' :: rest => some (Json.bool false, rest)
      | _ => none
    else if c = 'n' then
      match cs' with
      | 'u' :: 'l' :: 'l' :: rest => some (Json.null, rest)
      | _ => none
    else
      (parseNumber (c :: cs')).map (fun r => (Json.num r.1, r.2))

/-- The body of `parseVal` after its leading whitespace skip (definitionally
equal to it). -/
def parseValCore (fuel : Nat) : List Char → Option (Json × List Char)
  | [] => none
  | c :: cs' => parseValStep fuel c cs'

theorem parseVal_succ_eq_core (f : Nat) (cs : List Char) :
    parseVal (f + 1) cs = parseValCore f (skipWs cs) :=
  rfl

theorem parseVal_digit_dispatch (f : Nat) (c : Char) (cs : List Char)
    (h : c.isDigit = true) :
    parseVal (f + 1) (c :: cs) =
      (parseNumber (c :: cs)).map (fun r => (Json.num r.1, r.2)) := by
  obtain ⟨hws, _, h1, h2, h3, h4, h5, h6, _, _⟩ := isDigit_not_special c h
  rw [parseVal_succ_eq_core, skipWs_not_ws c cs hws]
  show parseValStep f c cs = _
  delta parseValStep
  simp only [if_neg h1, if_neg h2, if_neg h3, if_neg h4, if_neg h5, if_neg h6]

theorem parseVal_ws (f : Nat) (ws cs : List Char) (h : ∀ c ∈ ws, isWsChar c = true) :
    parseVal f (ws ++ cs) = parseVal f cs := by
  cases f with
  | zero => rfl
  | succ f => rw [parseVal_succ_eq_core, parseVal_succ_eq_core, skipWs_append_ws ws cs h]

/-- The body of `parseMembers` after its leading whitespace skip
(definitionally equal to it). -/
def parseMembersCore (fuel : Nat) : List Char → Option (List (String × Json) × List Char)
  | '"' :: cs' =>
    match parseStringBody cs' with
    | none => none
    | some (keyChars, afterKey) =>
      match skipWs afterKey with
      | ':' :: afterColon =>
        match parseVal fuel afterColon with
        | none => none
        | some (v, afterVal) =>
          match skipWs afterVal with
          | ',' :: afterComma =>
            (parseMembers fuel afterComma).map
              (fun r => ((String.mk keyChars, v) :: r.1, r.2))
          | c2 :: rest =>
            if c2 = rbrace then some ([(String.mk keyChars, v)], rest) else none
          | [] => none
      | _ => none
  | _ => none

theorem parseMembers_succ_eq_core (f : Nat) (cs : List Char) :
    parseMembers (f + 1) cs = parseMembersCore f (skipWs cs) :=
  rfl

theorem parseMembers_ws (f : Nat) (ws cs : List Char)
    (h : ∀ c ∈ ws, isWsChar c = true) :
    parseMembers f (ws ++ cs) = parseMembers f cs := by
  cases f with
  | zero => rfl
  | succ f =>
    rw [parseMembers_succ_eq_core, parseMembers_succ_eq_core, skipWs_append_ws ws cs h]

theorem keysNodupB_iff (kvs : List (String × Json)) :
    keysNodupB kvs = true ↔ (kvs.map Prod.fst).Nodup := by
  induction kvs with
  | nil => simp [keysNodupB]
  | cons kv rest ih =>
    rw [keysNodupB]
    simp only [Bool.and_eq_true, List.map_cons, List.nodup_cons]
    rw [ih]
    have hany := any_key_iff rest kv.1
    constructor
    · rintro ⟨h1, h2⟩
      refine ⟨fun hc => ?_, h2⟩
      rw [hany.mpr hc] at h1
      simp at h1
    · rintro ⟨h1, h2⟩
      refine ⟨?_, h2⟩
      cases ha : rest.any fun kv2 => kv2.1 = kv.1
      · rfl
      · exact absurd (hany.mp ha) h1

theorem foldIns_append_nodup (kvs : List (String × Json)) :
    ∀ d : List (String × Json), ((d ++ kvs).map Prod.fst).Nodup →
      kvs.foldl (fun d kv => dictInsert d kv.1 kv.2) d = d ++ kvs := by
  induction kvs with
  | nil => intro d _; simp
  | cons kv rest ih =>
    intro d h
    have hmem : kv.1 ∉ d.map Prod.fst := by
      rw [List.map_append] at h
      rcases List.nodup_append.mp h with ⟨_, _, hdisj⟩
      intro hc
      exact hdisj hc (by simp)
    simp only [List.foldl_cons]
    rw [dictInsert_of_not_mem d kv.1 kv.2 hmem]
    have heta : d ++ [(kv.1, kv.2)] = d ++ [kv] := rfl
    rw [heta, ih (d ++ [kv]) (by simpa using h)]
    simp

theorem dedupMembers_nodup (kvs : List (String × Json))
    (h : keysNodupB kvs = true) : dedupMembers kvs = kvs := by
  rw [dedupMembers]
  have := foldIns_append_nodup kvs [] (by simpa using (keysNodupB_iff kvs).mp h)
  simpa using this

theorem parseElems_succ (f : Nat) (cs : List Char) :
    parseElems (f + 1) cs =
      (match parseVal f cs with
       | none => none
       | some (v, afterVal) =>
         match skipWs afterVal with
         | ',' :: afterComma => (parseElems f afterComma).map (fun r => (v :: r.1, r.2))
         | ']' :: rest2 => some ([v], rest2)
         | _ => none) :=
  rfl

theorem parseElems_ws (f : Nat) (ws cs : List Char)
    (h : ∀ c ∈ ws, isWsChar c = true) :
    parseElems f (ws ++ cs) = parseElems f cs := by
  cases f with
  | zero => rfl
  | succ f => rw [parseElems_succ, parseElems_succ, parseVal_ws f ws cs h]

theorem parseMembersCore_quote (f : Nat) (cs' : List Char) :
    parseMembersCore f ('"' :: cs') =
      (match parseStringBody cs' with
       | none => none
       | some (keyChars, afterKey) =>
         match skipWs afterKey with
         | ':' :: afterColon =>
           match parseVal f afterColon with
           | none => none
           | some (v, afterVal) =>
             match skipWs afterVal with
             | ',' :: afterComma =>
               (parseMembers f afterComma).map
                 (fun r => ((String.mk keyChars, v) :: r.1, r.2))
             | c2 :: rest =>
               if c2 = rbrace then some ([(String.mk keyChars, v)], rest) else none
             | [] => none
         | _ => none) :=
  rfl

theorem wfElems_cons {x : Json} {xs : List Json} (h : wfElems (x :: xs) = true) :
    wfJson x = true ∧ wfElems xs = true := by
  rw [wfElems] at h
  simpa using h

theorem wfMembers_cons {kv : String × Json} {kvs : List (String × Json)}
    (h : wfMembers (kv :: kvs) = true) :
    plainStr kv.1 = true ∧ wfJson kv.2 = true ∧ wfMembers kvs = true := by
  rw [wfMembers] at h
  simp at h
  exact ⟨h.1.1, h.1.2, h.2⟩

theorem dumpVal_head (lvl : Nat) (v : Json) :
    ∃ c t, dumpVal lvl v = c :: t ∧ isWsChar c = false ∧ ¬ c = ']' := by
  cases v with
  | null => exact ⟨'n', ['u', 'l', 'l'], by rw [dumpVal], by decide, by decide⟩
  | bool b =>
    cases b with
    | false => exact ⟨'f', ['a', 'l', 's', 'e'], by rw [dumpVal], by decide, by decide⟩
    | true => exact ⟨'t', ['r', 'u', 'e'], by rw [dumpVal], by decide, by decide⟩
  | num n =>
    cases n with
    | ofNat m =>
      obtain ⟨c, t, hct⟩ := natChars_cons m
      have hcd : c.isDigit = true := by
        apply natChars_digit m
        rw [hct]
        exact List.mem_cons_self _ _
      obtain ⟨hws, hne, _⟩ := isDigit_not_special c hcd
      refine ⟨c, t, ?_, hws, hne⟩
      rw [dumpVal, ← hct]
      rfl
    | negSucc m =>
      refine ⟨'-', natChars (m + 1), ?_, by decide, by decide⟩
      rw [dumpVal]
      rfl
  | str s =>
    refine ⟨'"', (s.data.map escChar).flatten ++ ['"'], ?_, by decide, by decide⟩
    rw [dumpVal, dumpString]
    simp
  | arr xs =>
    cases xs with
    | nil => exact ⟨'[', [']'], by rw [dumpVal], by decide, by decide⟩
    | cons x r =>
      exact ⟨'[', '\n' :: (dumpItems (lvl + 1) (x :: r) ++
        '\n' :: (indentChars (4 * lvl) ++ [']'])), by rw [dumpVal], by decide, by decide⟩
  | obj kvs =>
    cases kvs with
    | nil => exact ⟨lbrace, [rbrace], by rw [dumpVal], by decide, by decide⟩
    | cons kv r =>
      exact ⟨lbrace, '\n' :: (dumpMembersJ (lvl + 1) (kv :: r) ++
        '\n' :: (indentChars (4 * lvl) ++ [rbrace])), by rw [dumpVal], by decide, by decide⟩

theorem skipWs_nl_ws (ws tail : List Char) (hws : ∀ c ∈ ws, isWsChar c = true)
    (c : Char) (hc : isWsChar c = false) :
    skipWs ('\n' :: (ws ++ (c :: tail))) = c :: tail := by
  rw [show ('\n' :: (ws ++ (c :: tail))) = ('\n' :: ws) ++ (c :: tail) from rfl,
    skipWs_append_ws _ _ ?_, skipWs_not_ws c tail hc]
  intro c2 hc2
  rcases List.mem_cons.mp hc2 with rfl | hc2
  · decide
  · exact hws c2 hc2

theorem parseElems_dump_aux (l : List Json)
    (IH : ∀ x ∈ l, ∀ (lvl : Nat) (rest : List Char) (fuel : Nat),
      wfJson x = true → fuelVal x ≤ fuel → nonDigitStart rest →
      parseVal fuel (dumpVal lvl x ++ rest) = some (x, rest)) :
    wfElems l = true →
    ∀ (lvl fuel : Nat) (rest ws : List Char), l ≠ [] → fuelElems l ≤ fuel →
      (∀ c ∈ ws, isWsChar c = true) →
      parseElems fuel (dumpItems lvl l ++ '\n' :: (ws ++ (']' :: rest))) =
        some (l, rest) := by
  induction l with
  | nil =>
    intro _ lvl fuel rest ws hne
    exact absurd rfl hne
  | cons x xs ihl =>
    intro hwf lvl fuel rest ws _ hfuel hws
    obtain ⟨hwx, hwxs⟩ := wfElems_cons hwf
    obtain ⟨f, rfl⟩ : ∃ f, fuel = f + 1 := by
      rw [fuelElems] at hfuel
      exact ⟨fuel - 1, by omega⟩
    have hfx : fuelVal x ≤ f := by rw [fuelElems] at hfuel; omega
    cases xs with
    | nil =>
      have hitems : dumpItems lvl [x] ++ '\n' :: (ws ++ (']' :: rest)) =
          indentChars (4 * lvl) ++ (dumpVal lvl x ++ ('\n' :: (ws ++ (']' :: rest)))) := by
        rw [dumpItems]
        simp
      have hval := IH x (List.mem_cons_self _ _) lvl ('\n' :: (ws ++ (']' :: rest))) f hwx hfx
        (by rw [nonDigitStart]; decide)
      have hsk := skipWs_nl_ws ws rest hws ']' (by decide)
      rw [hitems, parseElems_succ,
        parseVal_ws f (indentChars (4 * lvl)) _ (indentChars_ws _)]
      simp only [hval, hsk]
    | cons y r =>
      have hfr : fuelElems (y :: r) ≤ f := by
        rw [fuelElems] at hfuel
        omega
      have hitems : dumpItems lvl (x :: y :: r) ++ '\n' :: (ws ++ (']' :: rest)) =
          indentChars (4 * lvl) ++ (dumpVal lvl x ++ (',' :: ('\n' ::
            (dumpItems lvl (y :: r) ++ '\n' :: (ws ++ (']' :: rest)))))) := by
        rw [dumpItems]
        simp
      have hval := IH x (List.mem_cons_self _ _) lvl (',' :: ('\n' ::
          (dumpItems lvl (y :: r) ++ '\n' :: (ws ++ (']' :: rest))))) f hwx hfx
        (by rw [nonDigitStart]; decide)
      have hstrip : parseElems f ('\n' ::
          (dumpItems lvl (y :: r) ++ '\n' :: (ws ++ (']' :: rest)))) =
          parseElems f (dumpItems lvl (y :: r) ++ '\n' :: (ws ++ (']' :: rest))) := by
        rw [show ('\n' :: (dumpItems lvl (y :: r) ++ '\n' :: (ws ++ (']' :: rest)))) =
          ['\n'] ++ (dumpItems lvl (y :: r) ++ '\n' :: (ws ++ (']' :: rest))) from rfl,
          parseElems_ws f ['\n'] _ (by intro c hc; simp at hc; subst hc; decide)]
      have hrec := ihl (fun x' hx' => IH x' (List.mem_cons_of_mem _ hx')) hwxs lvl f rest ws
        (by simp) hfr hws
      rw [hitems, parseElems_succ,
        parseVal_ws f (indentChars (4 * lvl)) _ (indentChars_ws _)]
      simp only [hval, skipWs_not_ws ',' _ (by decide), hstrip, hrec, Option.map_some]
      rfl

theorem parseMembers_dump_aux (l : List (String × Json))
    (IH : ∀ kv ∈ l, ∀ (lvl : Nat) (rest : List Char) (fuel : Nat),
      wfJson kv.2 = true → fuelVal kv.2 ≤ fuel → nonDigitStart rest →
      parseVal fuel (dumpVal lvl kv.2 ++ rest) = some (kv.2, rest)) :
    wfMembers l = true →
    ∀ (lvl fuel : Nat) (rest ws : List Char), l ≠ [] → fuelMembers l ≤ fuel →
      (∀ c ∈ ws, isWsChar c = true) →
      parseMembers fuel (dumpMembersJ lvl l ++ '\n' :: (ws ++ (rbrace :: rest))) =
        some (l, rest) := by
  induction l with
  | nil =>
    intro _ lvl fuel rest ws hne
    exact absurd rfl hne
  | cons kv kvs ihl =>
    intro hwf lvl fuel rest ws _ hfuel hws
    obtain ⟨hpk, hwv, hwkvs⟩ := wfMembers_cons hwf
    obtain ⟨f, rfl⟩ : ∃ f, fuel = f + 1 := by
      rw [fuelMembers] at hfuel
      exact ⟨fuel - 1, by omega⟩
    have hfv : fuelVal kv.2 ≤ f := by rw [fuelMembers] at hfuel; omega
    have hplain : ∀ c ∈ kv.1.data, plainChar c = true := by
      rw [plainStr] at hpk
      simpa using hpk
    cases kvs with
    | nil =>
      have hmem : dumpMembersJ lvl [kv] ++ '\n' :: (ws ++ (rbrace :: rest)) =
          indentChars (4 * lvl) ++ ('"' :: (kv.1.data ++ ('"' :: (':' :: (' ' ::
            (dumpVal lvl kv.2 ++ '\n' :: (ws ++ (rbrace :: rest)))))))) := by
        rw [dumpMembersJ, dumpString_plain kv.1 hpk]
        simp
      have hstr : parseStringBody (kv.1.data ++ ('"' :: (':' :: (' ' ::
          (dumpVal lvl kv.2 ++ '\n' :: (ws ++ (rbrace :: rest))))))) =
          some (kv.1.data, ':' :: (' ' ::
            (dumpVal lvl kv.2 ++ '\n' :: (ws ++ (rbrace :: rest))))) :=
        parseStringBody_plain kv.1.data _ hplain
      have hval : parseVal f (' ' :: (dumpVal lvl kv.2 ++ '\n' :: (ws ++ (rbrace :: rest)))) =
          some (kv.2, '\n' :: (ws ++ (rbrace :: rest))) := by
        rw [show (' ' :: (dumpVal lvl kv.2 ++ '\n' :: (ws ++ (rbrace :: rest)))) =
          [' '] ++ (dumpVal lvl kv.2 ++ '\n' :: (ws ++ (rbrace :: rest))) from rfl,
          parseVal_ws f [' '] _ (by intro c hc; simp at hc; subst hc; decide)]
        exact IH kv (List.mem_cons_self _ _) lvl _ f hwv hfv (by rw [nonDigitStart]; decide)
      have hsk2 := skipWs_nl_ws ws rest hws rbrace (by decide)
      rw [hmem, parseMembers_succ_eq_core,
        skipWs_append_ws _ _ (indentChars_ws _), skipWs_not_ws '"' _ (by decide),
        parseMembersCore_quote]
      simp only [hstr, skipWs_not_ws ':' _ (by decide), hval, hsk2]
      rfl
    | cons kv2 r =>
      have hfr : fuelMembers (kv2 :: r) ≤ f := by
        rw [fuelMembers] at hfuel
        omega
      have hmem : dumpMembersJ lvl (kv :: kv2 :: r) ++ '\n' :: (ws ++ (rbrace :: rest)) =
          indentChars (4 * lvl) ++ ('"' :: (kv.1.data ++ ('"' :: (':' :: (' ' ::
            (dumpVal lvl kv.2 ++ (',' :: ('\n' :: (dumpMembersJ lvl (kv2 :: r) ++
              '\n' :: (ws ++ (rbrace :: rest))))))))))) := by
        rw [dumpMembersJ, dumpString_plain kv.1 hpk]
        simp
      have hstr : parseStringBody (kv.1.data ++ ('"' :: (':' :: (' ' ::
          (dumpVal lvl kv.2 ++ (',' :: ('\n' :: (dumpMembersJ lvl (kv2 :: r) ++
            '\n' :: (ws ++ (rbrace :: rest)))))))))) =
          some (kv.1.data, ':' :: (' ' ::
            (dumpVal lvl kv.2 ++ (',' :: ('\n' :: (dumpMembersJ lvl (kv2 :: r) ++
              '\n' :: (ws ++ (rbrace :: rest)))))))) :=
        parseStringBody_plain kv.1.data _ hplain
      have hval : parseVal f (' ' :: (dumpVal lvl kv.2 ++ (',' :: ('\n' ::
          (dumpMembersJ lvl (kv2 :: r) ++ '\n' :: (ws ++ (rbrace :: rest))))))) =
          some (kv.2, ',' :: ('\n' :: (dumpMembersJ lvl (kv2 :: r) ++
            '\n' :: (ws ++ (rbrace :: rest))))) := by
        rw [show (' ' :: (dumpVal lvl kv.2 ++ (',' :: ('\n' ::
            (dumpMembersJ lvl (kv2 :: r) ++ '\n' :: (ws ++ (rbrace :: rest))))))) =
          [' '] ++ (dumpVal lvl kv.2 ++ (',' :: ('\n' ::
            (dumpMembersJ lvl (kv2 :: r) ++ '\n' :: (ws ++ (rbrace :: rest)))))) from rfl,
          parseVal_ws f [' '] _ (by intro c hc; simp at hc; subst hc; decide)]
        exact IH kv (List.mem_cons_self _ _) lvl _ f hwv hfv (by rw [nonDigitStart]; decide)
      have hstrip : parseMembers f ('\n' :: (dumpMembersJ lvl (kv2 :: r) ++
          '\n' :: (ws ++ (rbrace :: rest)))) =
          parseMembers f (dumpMembersJ lvl (kv2 :: r) ++ '\n' :: (ws ++ (rbrace :: rest))) := by
        rw [show ('\n' :: (dumpMembersJ lvl (kv2 :: r) ++ '\n' :: (ws ++ (rbrace :: rest)))) =
          ['\n'] ++ (dumpMembersJ lvl (kv2 :: r) ++ '\n' :: (ws ++ (rbrace :: rest))) from rfl,
          parseMembers_ws f ['\n'] _ (by intro c hc; simp at hc; subst hc; decide)]
      have hrec := ihl (fun kv' hkv' => IH kv' (List.mem_cons_of_mem _ hkv')) hwkvs lvl f rest ws
        (by simp) hfr hws
      rw [hmem, parseMembers_succ_eq_core,
        skipWs_append_ws _ _ (indentChars_ws _), skipWs_not_ws '"' _ (by decide),
        parseMembersCore_quote]
      simp only [hstr, skipWs_not_ws ':' _ (by decide), hval,
        skipWs_not_ws ',' _ (by decide), hstrip, hrec, Option.map_some]
      rfl

theorem dumpMembersJ_shape (lvl : Nat) (kv : String × Json)
    (kvs : List (String × Json)) :
    ∃ Y, dumpMembersJ lvl (kv :: kvs) = indentChars (4 * lvl) ++ ('"' :: Y) := by
  cases kvs with
  | nil =>
    refine ⟨(kv.1.data.map escChar).flatten ++ (['"'] ++ (':' :: ' ' :: dumpVal lvl kv.2)), ?_⟩
    rw [dumpMembersJ, dumpString]
    simp
  | cons kv2 r =>
    refine ⟨(kv.1.data.map escChar).flatten ++ (['"'] ++ (':' :: ' ' ::
      (dumpVal lvl kv.2 ++ (',' :: '\n' :: dumpMembersJ lvl (kv2 :: r))))), ?_⟩
    rw [dumpMembersJ, dumpString]
    simp

theorem parseVal_dump_aux : ∀ (n : Nat) (v : Json), sizeOf v ≤ n →
    wfJson v = true →
    ∀ (lvl : Nat) (rest : List Char) (fuel : Nat), fuelVal v ≤ fuel → nonDigitStart rest →
      parseVal fuel (dumpVal lvl v ++ rest) = some (v, rest) := by
  intro n
  induction n with
  | zero =>
    intro v hv
    exfalso
    cases v <;> simp at hv
  | succ n ihn =>
    intro v hv hwf lvl rest fuel hfuel hrest
    cases v with
    | null =>
      have h1 : fuelVal Json.null = 1 := by rw [fuelVal]
      obtain ⟨f, rfl⟩ : ∃ f, fuel = f + 1 := ⟨fuel - 1, by omega⟩
      have hd : dumpVal lvl Json.null ++ rest = 'n' :: 'u' :: 'l' :: 'l' :: rest := by
        rw [dumpVal]
        rfl
      rw [hd]
      rfl
    | bool b =>
      have h1 : fuelVal (Json.bool b) = 1 := by rw [fuelVal]
      obtain ⟨f, rfl⟩ : ∃ f, fuel = f + 1 := ⟨fuel - 1, by omega⟩
      cases b with
      | false =>
        have hd : dumpVal lvl (Json.bool false) ++ rest =
            'f' :: 'a' :: 'l' :: 's' :: 'e' :: rest := by
          rw [dumpVal]
          rfl
        rw [hd]
        rfl
      | true =>
        have hd : dumpVal lvl (Json.bool true) ++ rest = 't' :: 'r' :: 'u' :: 'e' :: rest := by
          rw [dumpVal]
          rfl
        rw [hd]
        rfl
    | num i =>
      have h1 : fuelVal (Json.num i) = 1 := by rw [fuelVal]
      obtain ⟨f, rfl⟩ : ∃ f, fuel = f + 1 := ⟨fuel - 1, by omega⟩
      cases i with
      | ofNat m =>
        have hd : dumpVal lvl (Json.num (Int.ofNat m)) ++ rest = natChars m ++ rest := by
          rw [dumpVal]
          rfl
        rw [hd]
        obtain ⟨c, t, hct⟩ := natChars_cons m
        have hcd : c.isDigit = true := by
          apply natChars_digit m
          rw [hct]
          exact List.mem_cons_self _ _
        rw [hct, List.cons_append, parseVal_digit_dispatch f c _ hcd, ← List.cons_append,
          ← hct, parseNumber_natChars m rest hrest]
        rfl
      | negSucc m =>
        have hd : dumpVal lvl (Json.num (Int.negSucc m)) ++ rest =
            '-' :: (natChars (m + 1) ++ rest) := by
          rw [dumpVal]
          rfl
        have hneg : parseVal (f + 1) ('-' :: (natChars (m + 1) ++ rest)) =
            (parseNumber ('-' :: (natChars (m + 1) ++ rest))).map
              (fun r => (Json.num r.1, r.2)) := rfl
        rw [hd, hneg, show ('-' :: (natChars (m + 1) ++ rest)) =
          ('-' :: natChars (m + 1)) ++ rest from rfl, parseNumber_negSucc m rest hrest]
        rfl
    | str s =>
      have h1 : fuelVal (Json.str s) = 1 := by rw [fuelVal]
      obtain ⟨f, rfl⟩ : ∃ f, fuel = f + 1 := ⟨fuel - 1, by omega⟩
      have hplain : plainStr s = true := by
        rw [wfJson] at hwf
        exact hwf
      have hd : dumpVal lvl (Json.str s) ++ rest = '"' :: (s.data ++ ('"' :: rest)) := by
        rw [dumpVal, dumpString_plain s hplain]
        simp
      rw [hd, parseVal_str_dispatch,
        parseStringBody_plain s.data rest (by rw [plainStr] at hplain; simpa using hplain)]
      rfl
    | arr elems =>
      cases elems with
      | nil =>
        have h1 : fuelVal (Json.arr []) = 1 := by rw [fuelVal]
        obtain ⟨f, rfl⟩ : ∃ f, fuel = f + 1 := ⟨fuel - 1, by omega⟩
        have hd : dumpVal lvl (Json.arr []) ++ rest = '[' :: ']' :: rest := by
          rw [dumpVal]
          rfl
        rw [hd]
        rfl
      | cons x xs =>
        have h1 : fuelVal (Json.arr (x :: xs)) = 1 + fuelElems (x :: xs) := by rw [fuelVal]
        obtain ⟨f, rfl⟩ : ∃ f, fuel = f + 1 := ⟨fuel - 1, by omega⟩
        have hfe : fuelElems (x :: xs) ≤ f := by omega
        have hwe : wfElems (x :: xs) = true := by
          rw [wfJson] at hwf
          exact hwf
        have hIH : ∀ x' ∈ x :: xs, ∀ (lvl' : Nat) (rest' : List Char) (fuel' : Nat),
            wfJson x' = true → fuelVal x' ≤ fuel' → nonDigitStart rest' →
            parseVal fuel' (dumpVal lvl' x' ++ rest') = some (x', rest') := by
          intro x' hx' lvl' rest' fuel' hw' hf' hnd'
          have hsz : sizeOf x' ≤ n := by
            have h2 := List.sizeOf_lt_of_mem hx'
            have h3 : sizeOf (Json.arr (x :: xs)) = 1 + sizeOf (x :: xs) := by simp
            omega
          exact ihn x' hsz hw' lvl' rest' fuel' hf' hnd'
        have hd : dumpVal lvl (Json.arr (x :: xs)) ++ rest =
            '[' :: ('\n' :: (dumpItems (lvl + 1) (x :: xs) ++
              ('\n' :: (indentChars (4 * lvl) ++ (']' :: rest))))) := by
          rw [dumpVal]
          simp
        rw [hd, parseVal_arr_dispatch]
        obtain ⟨c0, t0, hdv, hws0, hne0⟩ := dumpVal_head (lvl + 1) x
        have hshape : ∃ Z, skipWs ('\n' :: (dumpItems (lvl + 1) (x :: xs) ++
            ('\n' :: (indentChars (4 * lvl) ++ (']' :: rest))))) = c0 :: Z := by
          have hnlws : ∀ c ∈ '\n' :: indentChars (4 * (lvl + 1)), isWsChar c = true := by
            intro c hc
            rcases List.mem_cons.mp hc with rfl | hc
            · decide
            · exact indentChars_ws _ c hc
          cases xs with
          | nil =>
            refine ⟨t0 ++ ('\n' :: (indentChars (4 * lvl) ++ (']' :: rest))), ?_⟩
            rw [dumpItems, hdv,
              show ('\n' :: ((indentChars (4 * (lvl + 1)) ++ (c0 :: t0)) ++
                ('\n' :: (indentChars (4 * lvl) ++ (']' :: rest))))) =
              ('\n' :: indentChars (4 * (lvl + 1))) ++ (c0 :: (t0 ++
                ('\n' :: (indentChars (4 * lvl) ++ (']' :: rest))))) from by simp,
              skipWs_append_ws _ _ hnlws, skipWs_not_ws c0 _ hws0]
          | cons y r =>
            refine ⟨t0 ++ (',' :: '\n' :: dumpItems (lvl + 1) (y :: r) ++
              ('\n' :: (indentChars (4 * lvl) ++ (']' :: rest)))), ?_⟩
            rw [dumpItems, hdv,
              show ('\n' :: ((indentChars (4 * (lvl + 1)) ++ (c0 :: t0) ++
                ',' :: '\n' :: dumpItems (lvl + 1) (y :: r)) ++
                ('\n' :: (indentChars (4 * lvl) ++ (']' :: rest))))) =
              ('\n' :: indentChars (4 * (lvl + 1))) ++ (c0 :: (t0 ++
                (',' :: '\n' :: dumpItems (lvl + 1) (y :: r) ++
                ('\n' :: (indentChars (4 * lvl) ++ (']' :: rest)))))) from by simp,
              skipWs_append_ws _ _ hnlws, skipWs_not_ws c0 _ hws0]
        obtain ⟨Z, hsk⟩ := hshape
        rw [hsk]
        split
        · next rest2 heq =>
          exfalso
          exact hne0 (by injection heq)
        · next h2 =>
          rw [show ('\n' :: (dumpItems (lvl + 1) (x :: xs) ++
              ('\n' :: (indentChars (4 * lvl) ++ (']' :: rest))))) =
            ['\n'] ++ (dumpItems (lvl + 1) (x :: xs) ++
              '\n' :: (indentChars (4 * lvl) ++ (']' :: rest))) from by simp,
            parseElems_ws f ['\n'] _ (by intro c hc; simp at hc; subst hc; decide),
            parseElems_dump_aux (x :: xs) hIH hwe (lvl + 1) f rest
              (indentChars (4 * lvl)) (by simp) hfe (indentChars_ws _)]
          rfl
    | obj members =>
      cases members with
      | nil =>
        have h1 : fuelVal (Json.obj []) = 1 := by rw [fuelVal]
        obtain ⟨f, rfl⟩ : ∃ f, fuel = f + 1 := ⟨fuel - 1, by omega⟩
        have hd : dumpVal lvl (Json.obj []) ++ rest = lbrace :: rbrace :: rest := by
          rw [dumpVal]
          rfl
        rw [hd]
        rfl
      | cons kv kvs =>
        have h1 : fuelVal (Json.obj (kv :: kvs)) = 1 + fuelMembers (kv :: kvs) := by
          rw [fuelVal]
        obtain ⟨f, rfl⟩ : ∃ f, fuel = f + 1 := ⟨fuel - 1, by omega⟩
        have hfm : fuelMembers (kv :: kvs) ≤ f := by omega
        have hwf2 : keysNodupB (kv :: kvs) = true ∧ wfMembers (kv :: kvs) = true := by
          rw [wfJson] at hwf
          simpa using hwf
        have hIH : ∀ kv' ∈ kv :: kvs, ∀ (lvl' : Nat) (rest' : List Char) (fuel' : Nat),
            wfJson kv'.2 = true → fuelVal kv'.2 ≤ fuel' → nonDigitStart rest' →
            parseVal fuel' (dumpVal lvl' kv'.2 ++ rest') = some (kv'.2, rest') := by
          intro kv' hkv' lvl' rest' fuel' hw' hf' hnd'
          have hsz : sizeOf kv'.2 ≤ n := by
            have h2 := List.sizeOf_lt_of_mem hkv'
            have h3 : sizeOf (Json.obj (kv :: kvs)) = 1 + sizeOf (kv :: kvs) := by simp
            have h4 : sizeOf kv'.2 < sizeOf kv' := by
              obtain ⟨k', v'⟩ := kv'
              simp
            omega
          exact ihn kv'.2 hsz hw' lvl' rest' fuel' hf' hnd'
        have hd : dumpVal lvl (Json.obj (kv :: kvs)) ++ rest =
            lbrace :: ('\n' :: (dumpMembersJ (lvl + 1) (kv :: kvs) ++
              ('\n' :: (indentChars (4 * lvl) ++ (rbrace :: rest))))) := by
          rw [dumpVal]
          simp
        rw [hd, parseVal_obj_dispatch]
        have hnlws : ∀ c ∈ '\n' :: indentChars (4 * (lvl + 1)), isWsChar c = true := by
          intro c hc
          rcases List.mem_cons.mp hc with rfl | hc
          · decide
          · exact indentChars_ws _ c hc
        obtain ⟨Y, hY⟩ := dumpMembersJ_shape (lvl + 1) kv kvs
        have hsk : skipWs ('\n' :: (dumpMembersJ (lvl + 1) (kv :: kvs) ++
            ('\n' :: (indentChars (4 * lvl) ++ (rbrace :: rest))))) =
            '"' :: (Y ++ ('\n' :: (indentChars (4 * lvl) ++ (rbrace :: rest)))) := by
          rw [hY, show ('\n' :: ((indentChars (4 * (lvl + 1)) ++ ('"' :: Y)) ++
              ('\n' :: (indentChars (4 * lvl) ++ (rbrace :: rest))))) =
            ('\n' :: indentChars (4 * (lvl + 1))) ++ ('"' :: (Y ++
              ('\n' :: (indentChars (4 * lvl) ++ (rbrace :: rest))))) from by simp,
            skipWs_append_ws _ _ hnlws, skipWs_not_ws '"' _ (by decide)]
        rw [hsk]
        split
        · next heq =>
          exact absurd heq (by simp)
        · next c2 rest2 heq =>
          have hq : ('"' : Char) = c2 := by injection heq
          rw [if_neg (by rw [← hq]; decide)]
          rw [show ('\n' :: (dumpMembersJ (lvl + 1) (kv :: kvs) ++
              ('\n' :: (indentChars (4 * lvl) ++ (rbrace :: rest))))) =
            ['\n'] ++ (dumpMembersJ (lvl + 1) (kv :: kvs) ++
              '\n' :: (indentChars (4 * lvl) ++ (rbrace :: rest))) from by simp,
            parseMembers_ws f ['\n'] _ (by intro c hc; simp at hc; subst hc; decide),
            parseMembers_dump_aux (kv :: kvs) hIH hwf2.2 (lvl + 1) f rest
              (indentChars (4 * lvl)) (by simp) hfm (indentChars_ws _)]
          simp [dedupMembers_nodup (kv :: kvs) hwf2.1]

theorem dumpString_length_ge (s : String) : 2 ≤ (dumpString s).length := by
  rw [dumpString]
  simp

theorem fuelElems_le_aux (l : List Json)
    (IH : ∀ x ∈ l, ∀ lvl : Nat, fuelVal x ≤ (dumpVal lvl x).length + 1) :
    ∀ lvl : Nat, 1 ≤ lvl → fuelElems l ≤ (dumpItems lvl l).length + 1 := by
  induction l with
  | nil =>
    intro lvl _
    rw [fuelElems, dumpItems]
    simp
  | cons x xs ih =>
    intro lvl hlvl
    have hx := IH x (List.mem_cons_self _ _) lvl
    cases xs with
    | nil =>
      rw [fuelElems, fuelElems, dumpItems]
      simp only [List.length_append, indentChars, List.length_replicate]
      omega
    | cons y r =>
      have hr := ih (fun x' hx' => IH x' (List.mem_cons_of_mem _ hx')) lvl hlvl
      rw [fuelElems]
      rw [dumpItems]
      simp only [List.length_append, indentChars, List.length_replicate, List.length_cons]
      rw [fuelElems] at hr ⊢
      omega

theorem fuelMembers_le_aux (l : List (String × Json))
    (IH : ∀ kv ∈ l, ∀ lvl : Nat, fuelVal kv.2 ≤ (dumpVal lvl kv.2).length + 1) :
    ∀ lvl : Nat, fuelMembers l ≤ (dumpMembersJ lvl l).length + 1 := by
  induction l with
  | nil =>
    intro lvl
    rw [fuelMembers, dumpMembersJ]
    simp
  | cons kv kvs ih =>
    intro lvl
    have hv := IH kv (List.mem_cons_self _ _) lvl
    have hds := dumpString_length_ge kv.1
    cases kvs with
    | nil =>
      rw [fuelMembers, fuelMembers, dumpMembersJ]
      simp only [List.length_append, indentChars, List.length_replicate, List.length_cons]
      omega
    | cons kv2 r =>
      have hr := ih (fun kv' hkv' => IH kv' (List.mem_cons_of_mem _ hkv')) lvl
      rw [fuelMembers]
      rw [dumpMembersJ]
      simp only [List.length_append, indentChars, List.length_replicate, List.length_cons]
      rw [fuelMembers] at hr ⊢
      omega

theorem fuelVal_le_dumpLen : ∀ (n : Nat) (v : Json), sizeOf v ≤ n →
    ∀ lvl : Nat, fuelVal v ≤ (dumpVal lvl v).length + 1 := by
  intro n
  induction n with
  | zero =>
    intro v hv
    exfalso
    cases v <;> simp at hv
  | succ n ihn =>
    intro v hv lvl
    cases v with
    | null => rw [fuelVal]; omega
    | bool b => rw [fuelVal]; omega
    | num i => rw [fuelVal]; omega
    | str s => rw [fuelVal]; omega
    | arr elems =>
      cases elems with
      | nil => rw [fuelVal]; omega
      | cons x xs =>
        have hIH : ∀ x' ∈ x :: xs, ∀ lvl' : Nat,
            fuelVal x' ≤ (dumpVal lvl' x').length + 1 := by
          intro x' hx' lvl'
          have h2 := List.sizeOf_lt_of_mem hx'
          have h3 : sizeOf (Json.arr (x :: xs)) = 1 + sizeOf (x :: xs) := by simp
          exact ihn x' (by omega) lvl'
        have haux := fuelElems_le_aux (x :: xs) hIH (lvl + 1) (by omega)
        rw [fuelVal, dumpVal]
        simp only [List.length_cons, List.length_append, indentChars, List.length_replicate]
        omega
    | obj members =>
      cases members with
      | nil => rw [fuelVal]; omega
      | cons kv kvs =>
        have hIH : ∀ kv' ∈ kv :: kvs, ∀ lvl' : Nat,
            fuelVal kv'.2 ≤ (dumpVal lvl' kv'.2).length + 1 := by
          intro kv' hkv' lvl'
          have h2 := List.sizeOf_lt_of_mem hkv'
          have h3 : sizeOf (Json.obj (kv :: kvs)) = 1 + sizeOf (kv :: kvs) := by simp
          have h4 : sizeOf kv'.2 < sizeOf kv' := by
            obtain ⟨k', v'⟩ := kv'
            simp
          exact ihn kv'.2 (by omega) lvl'
        have haux := fuelMembers_le_aux (kv :: kvs) hIH (lvl + 1)
        rw [fuelVal, dumpVal]
        simp only [List.length_cons, List.length_append, indentChars, List.length_replicate]
        omega

theorem pyParse_pyDump (v : Json) (hwf : wfJson v = true) :
    pyParse (pyDump v) = some v := by
  have hfuel : fuelVal v ≤ (dumpVal 0 v).length + 1 :=
    fuelVal_le_dumpLen (sizeOf v) v (le_refl _) 0
  have hmain := parseVal_dump_aux (sizeOf v) v (le_refl _) hwf 0 []
    ((dumpVal 0 v).length + 1) hfuel (by rw [nonDigitStart]; trivial)
  rw [List.append_nil] at hmain
  have h2 : parseVal ((pyDump v).length + 1) (pyDump v).data = some (v, []) := hmain
  delta pyParse
  rw [h2]
  rfl

/-- A compactly formatted (yet valid) config file: same JSON content as
`pyDump` would write, different bytes. -/
def compactFileEx : String :=
  String.mk [lbrace, '"', 'k', '"', ':', ' ', '"', 'v', '"', rbrace]

/-- C8 counterexample: `load()` then `persist()` is *not* byte-equivalent
modulo key ordering.  The compact one-line file parses to the one-member
object `{"k": "v"}`; persisting that object writes the 4-space-indented,
newline-separated form, which differs from the original bytes — and with a
single member there is no key reordering that could reconcile them. -/
theorem claim_C8_counterexample :
    pyParse compactFileEx = some (Json.obj [("k", Json.str "v")]) ∧
    pyDump (Json.obj [("k", Json.str "v")]) ≠ compactFileEx := by
  constructor
  · rfl
  · decide

/-- C8 as amended: `load()` then `persist()` reproduces the file's JSON
*content* exactly — for every config file whose bytes parse to a value `v`
(within the modelled JSON fragment: integer numbers, printable-ASCII
strings, unique keys), re-parsing the persisted bytes yields exactly `v`,
keys in the same order.  Only the surrounding formatting is normalised to
`indent=4` form. -/
theorem claim_C8_load_persist_reproduces_content (s : String) (v : Json)
    (_hload : pyParse s = some v) (hwf : wfJson v = true) :
    pyParse (pyDump v) = some v :=
  pyParse_pyDump v hwf

set_option maxRecDepth 4096 in
/-- Witness for the amended C8: a one-record config round-trips. -/
theorem claim_C8_witness :
    pyParse (pyDump (Json.obj [("alpha@server", recAlphaEx)])) =
      some (Json.obj [("alpha@server", recAlphaEx)]) :=
  claim_C8_load_persist_reproduces_content
    (pyDump (Json.obj [("alpha@server", recAlphaEx)]))
    (Json.obj [("alpha@server", recAlphaEx)]) rfl rfl
